import Mathlib

/-!
Shallow embedding of the jsonschema validation/coercion engine
(src/jsonschema/__init__.py).

Python runtime values are modelled by `Value`.  Python floats and decimals
are modelled as exact rationals: no claim in this development depends on
binary floating-point rounding, and on every input exercised here the two
agree.  Python exceptions are modelled by `Except Err`: `ValidationError`
by the `Err.vErr` constructor, and every non-ValidationError exception
(TypeError, AttributeError, IndexError, the ValueError raised by float())
by `Err.typeErr`, which is never caught by code that catches only
ValidationError.  Python dicts are association lists in insertion order
with string keys (the engine only ever uses string keys).
-/

namespace JsonSchema

/-- A Python runtime value, restricted to the kinds of values the engine
manipulates: None, bool, int, float, Decimal, str, datetime.date,
datetime.datetime, list, tuple and (string-keyed) dict. -/
inductive Value where
  | none
  | bool (b : Bool)
  | int (n : Int)
  | float (q : ℚ)
  | decimal (q : ℚ)
  | str (s : String)
  | pydate (y m d : Nat)
  | pydatetime (y m d hh mi ss us : Nat)
  | list (xs : List Value)
  | tuple (xs : List Value)
  | dict (kvs : List (String × Value))

/-- Numeric view used by Python cross-type `==`: bools count as 0/1,
ints, floats and Decimals by their numeric value. -/
def valToQ : Value → Option ℚ
  | .bool b => some (if b then 1 else 0)
  | .int n => some (n : ℚ)
  | .float q => some q
  | .decimal q => some q
  | _ => Option.none

/-- First-occurrence association-list lookup (Python dict lookup; Python
dicts cannot hold duplicate keys, so first-occurrence is exact). -/
def lookupValue (k : String) : List (String × Value) → Option Value
  | [] => Option.none
  | (k₁, v) :: rest => if k₁ = k then some v else lookupValue k rest

mutual

/-- Python `==` on the modelled values: numeric kinds compare by value
(`1 == 1.0 == True`), strings by content, lists/tuples elementwise (a
list never equals a tuple), dicts by key lookup.  Identity-based checks
in the source (`is True`, `is None`) are matched structurally instead. -/
def pyEq : Value → Value → Bool
  | .none, .none => true
  | .str s, .str t => s = t
  | .pydate y m d, .pydate y₁ m₁ d₁ => y = y₁ && m = m₁ && d = d₁
  | .pydatetime y m d h i s u, .pydatetime y₁ m₁ d₁ h₁ i₁ s₁ u₁ =>
      y = y₁ && m = m₁ && d = d₁ && h = h₁ && i = i₁ && s = s₁ && u = u₁
  | .list xs, .list ys => pyEqList xs ys
  | .tuple xs, .tuple ys => pyEqList xs ys
  | .dict xs, .dict ys => xs.length = ys.length && pyEqFields xs ys
  | a, b =>
      match valToQ a, valToQ b with
      | some x, some y => x = y
      | _, _ => false

def pyEqList : List Value → List Value → Bool
  | [], [] => true
  | x :: xs, y :: ys => pyEq x y && pyEqList xs ys
  | _, _ => false

def pyEqFields : List (String × Value) → List (String × Value) → Bool
  | [], _ => true
  | (k, v) :: xs, ys =>
      (match lookupValue k ys with
       | some w => pyEq v w
       | Option.none => false) && pyEqFields xs ys

end

/-- Python `in` over a tuple of constants (membership via `==`). -/
def pyIn (v : Value) (l : List Value) : Bool := l.any (fun t => pyEq v t)

/-- Value of a list of ASCII digit characters. -/
def digitsVal (l : List Char) : Nat := l.foldl (fun a c => a * 10 + (c.toNat - 48)) 0

/-- Python repr of a float (decimal expansion; exact for every float the
engine can produce on the inputs exercised here). -/
def floatRepr (q : ℚ) : String :=
  if q.den = 1 then toString q.num ++ ".0"
  else
    match (List.range 64).find? (fun k => (q * (10 : ℚ) ^ (k + 1)).den = 1) with
    | some k₀ =>
        let k := k₀ + 1
        let n := (q * (10 : ℚ) ^ k).num
        let sign := if n < 0 then "-" else ""
        let ds₀ := toString n.natAbs
        let ds := if ds₀.length ≤ k then
            String.mk (List.replicate (k + 1 - ds₀.length) '0') ++ ds₀ else ds₀
        sign ++ ds.take (ds.length - k) ++ "." ++ ds.drop (ds.length - k)
    | Option.none => toString q.num ++ "/" ++ toString q.den

/-- Python str() of a number as stored in a Number bound (an int renders
without a decimal point). -/
def pyNumStr (q : ℚ) : String :=
  if q.den = 1 then toString q.num else floatRepr q

mutual

/-- Python repr() of a value.  Strings are modelled as quoting with a
single quote and no escaping, exact for every key and constant used
here. -/
def pyRepr : Value → String
  | .none => "None"
  | .bool b => if b then "True" else "False"
  | .int n => toString n
  | .float q => floatRepr q
  | .decimal q => "Decimal(\x27" ++ pyNumStr q ++ "\x27)"
  | .str s => "\x27" ++ s ++ "\x27"
  | .pydate y m d => "datetime.date(" ++ toString y ++ ", " ++ toString m ++ ", " ++ toString d ++ ")"
  | .pydatetime y m d h i s u =>
      "datetime.datetime(" ++ toString y ++ ", " ++ toString m ++ ", " ++ toString d ++ ", "
        ++ toString h ++ ", " ++ toString i ++ ", " ++ toString s ++
        (if u = 0 then "" else ", " ++ toString u) ++ ")"
  | .list xs => "[" ++ pyReprJoin xs ++ "]"
  | .tuple xs =>
      if xs.length = 1 then "(" ++ pyReprJoin xs ++ ",)"
      else "(" ++ pyReprJoin xs ++ ")"
  | .dict kvs => "\x7b" ++ pyReprFieldsJoin kvs ++ "\x7d"
termination_by v => sizeOf v

def pyReprJoin : List Value → String
  | [] => ""
  | [x] => pyRepr x
  | x :: rest => pyRepr x ++ ", " ++ pyReprJoin rest
termination_by l => sizeOf l

def pyReprFieldsJoin : List (String × Value) → String
  | [] => ""
  | [(k, v)] => "\x27" ++ k ++ "\x27: " ++ pyRepr v
  | (k, v) :: rest => "\x27" ++ k ++ "\x27: " ++ pyRepr v ++ ", " ++ pyReprFieldsJoin rest
termination_by l => sizeOf l

end

/-- Python str() of a value (equals repr except on str, date, datetime). -/
def pyStr : Value → String
  | .str s => s
  | .pydate y m d =>
      (toString y).leftpad 4 '0' ++ "-" ++ (toString m).leftpad 2 '0' ++ "-" ++ (toString d).leftpad 2 '0'
  | .pydatetime y m d h i s u =>
      (toString y).leftpad 4 '0' ++ "-" ++ (toString m).leftpad 2 '0' ++ "-" ++ (toString d).leftpad 2 '0'
        ++ " " ++ (toString h).leftpad 2 '0' ++ ":" ++ (toString i).leftpad 2 '0' ++ ":"
        ++ (toString s).leftpad 2 '0' ++ (if u = 0 then "" else "." ++ (toString u).leftpad 6 '0')
  | v => pyRepr v

/-! ### Regex patterns used by the engine

The three concrete regular expressions of the source (`Number.match`,
`Date.pattern`, `Datetime.pattern`) are embedded as decidable character
list predicates; `\d` is modelled as an ASCII digit.  `re.match` anchors
at the start; the trailing `$` of each pattern also accepts one final
newline, which `matchDollar` reproduces. -/

/-- Anchored match against a `^...$` pattern body, accepting an optional
single trailing newline exactly as Python `$` does. -/
def matchDollar (core : List Char → Bool) (s : String) : Bool :=
  core s.data || (s.data.getLast? = some '\n' && core s.data.dropLast)

/-- Body of `^\d+(\.\d+)?$` (the `Number` numeric-literal pattern). -/
def numberPatternCore (l : List Char) : Bool :=
  let (a, rest) := l.span (·.isDigit)
  !a.isEmpty &&
    (match rest with
     | [] => true
     | '.' :: b => !b.isEmpty && b.all (·.isDigit)
     | _ => false)

/-- Body of `^\d{4}-\d{2}-\d{2}$` (the `Date` pattern). -/
def datePatternCore : List Char → Bool
  | [a, b, c, d, '-', e, f, '-', g, h] =>
      [a, b, c, d, e, f, g, h].all (·.isDigit)
  | _ => false

/-- Tail of the `Datetime` pattern after the seconds: `(\.\d*)?Z?$`. -/
def dtTail : List Char → Bool
  | [] => true
  | ['Z'] => true
  | '.' :: t =>
      let (_, rem) := t.span (·.isDigit)
      rem = [] || rem = ['Z']
  | _ => false

/-- Body of `^\d{4}-\d{2}-\d{2}T\d{2}:\d{2}:\d{2}(\.\d*)?Z?$`
(the `Datetime` pattern). -/
def dtPatternCore : List Char → Bool
  | y1 :: y2 :: y3 :: y4 :: '-' :: m1 :: m2 :: '-' :: d1 :: d2 :: 'T'
      :: h1 :: h2 :: ':' :: n1 :: n2 :: ':' :: s1 :: s2 :: rest =>
      [y1, y2, y3, y4, m1, m2, d1, d2, h1, h2, n1, n2, s1, s2].all (·.isDigit)
        && dtTail rest
  | _ => false

/-- Source text of `Date.pattern`, used in the mismatch message. -/
def datePatternStr : String := "^\\d\x7b4\x7d-\\d\x7b2\x7d-\\d\x7b2\x7d$"

/-- Source text of `Datetime.pattern`, used in the mismatch message. -/
def datetimePatternStr : String :=
  "^\\d\x7b4\x7d-\\d\x7b2\x7d-\\d\x7b2\x7dT\\d\x7b2\x7d:\\d\x7b2\x7d:\\d\x7b2\x7d(\\.\\d*)?Z?$"

/-! ### Python float() and strptime -/

/-- Python float() applied to a string: optional sign, digits with at
most one point, optional exponent (whitespace-stripped).  `inf`/`nan`
literals are not modelled; no validated input reaches them. -/
def parseFloatString (s : String) : Option ℚ :=
  let l := (((s.data.dropWhile (·.isWhitespace)).reverse.dropWhile (·.isWhitespace))).reverse
  let (sign, l) : ℚ × List Char :=
    match l with
    | '+' :: t => (1, t)
    | '-' :: t => (-1, t)
    | t => (1, t)
  let (mant, expPart) : List Char × Option (List Char) :=
    let (a, b) := l.span (fun c => !(c = 'e' || c = 'E'))
    (a, match b with | [] => Option.none | _ :: t => some t)
  let mantQ : Option ℚ :=
    let (ip, r) := mant.span (·.isDigit)
    match r with
    | [] => if ip.isEmpty then Option.none else some ((digitsVal ip : ℚ))
    | '.' :: fp =>
        if fp.all (·.isDigit) && !(ip.isEmpty && fp.isEmpty) then
          some ((digitsVal ip : ℚ) + (digitsVal fp : ℚ) / (10 : ℚ) ^ fp.length)
        else Option.none
    | _ => Option.none
  let expZ : Option ℤ :=
    match expPart with
    | Option.none => some 0
    | some e =>
        let (es, ds) : ℤ × List Char :=
          match e with
          | '+' :: t => (1, t)
          | '-' :: t => (-1, t)
          | t => (1, t)
        if ds.isEmpty || !ds.all (·.isDigit) then Option.none
        else some (es * (digitsVal ds : ℤ))
  match mantQ, expZ with
  | some m, some e => some (sign * m * (10 : ℚ) ^ e)
  | _, _ => Option.none

def isLeapYear (y : Nat) : Bool := y % 4 = 0 && (y % 100 ≠ 0 || y % 400 = 0)

def daysInMonth (y m : Nat) : Nat :=
  if m = 2 then (if isLeapYear y then 29 else 28)
  else if m = 4 || m = 6 || m = 9 || m = 11 then 30
  else 31

/-- A 1-to-`maxLen`-digit numeric field of strptime. -/
def strptimeField (s : String) (maxLen : Nat) : Option Nat :=
  if 1 ≤ s.length && s.length ≤ maxLen && s.data.all (·.isDigit) then
    some (digitsVal s.data) else Option.none

/-- `datetime.strptime(s, "%Y-%m-%d")` reduced to its success value:
a 4-digit year, 1-2 digit month and day, and a real calendar date
(`datetime.date` raises on day 32, year 0, etc.). -/
def strptimeDate (s : String) : Option (Nat × Nat × Nat) :=
  match s.splitOn "-" with
  | [ys, ms, ds] =>
      if ys.length = 4 && ys.data.all (·.isDigit) then
        match strptimeField ms 2, strptimeField ds 2 with
        | some m, some d =>
            let y := digitsVal ys.data
            if 1 ≤ y && 1 ≤ m && m ≤ 12 && 1 ≤ d && d ≤ daysInMonth y m then
              some (y, m, d)
            else Option.none
        | _, _ => Option.none
      else Option.none
  | _ => Option.none

/-- strptime against one of the three Datetime formats:
`%Y-%m-%dT%H:%M:%S` (`withFrac = false`), `...%S.%f` (`withFrac = true,
withZ = false`) and `...%S.%fZ` (`withFrac = true, withZ = true`). -/
def strptimeDatetime (s : String) (withFrac withZ : Bool) : Option Value :=
  match s.splitOn "T" with
  | [dp, tp] =>
      match strptimeDate dp with
      | some (y, m, d) =>
          match tp.splitOn ":" with
          | [hs, ms, rest] =>
              (match strptimeField hs 2, strptimeField ms 2 with
               | some h, some mi =>
                   if h ≤ 23 && mi ≤ 59 then
                     let rest : Option String :=
                       if withZ then
                         (if rest.data.getLast? = some 'Z' then
                            some (String.mk rest.data.dropLast) else Option.none)
                       else some rest
                     match rest with
                     | some rest =>
                         if withFrac then
                           match rest.splitOn "." with
                           | [ss, fs] =>
                               (match strptimeField ss 2, strptimeField fs 6 with
                                | some sec, some _ =>
                                    if sec ≤ 59 then
                                      some (.pydatetime y m d h mi sec
                                        (digitsVal fs.data * 10 ^ (6 - fs.length)))
                                    else Option.none
                                | _, _ => Option.none)
                           | _ => Option.none
                         else
                           match strptimeField rest 2 with
                           | some sec => if sec ≤ 59 then
                                some (.pydatetime y m d h mi sec 0) else Option.none
                           | Option.none => Option.none
                     | Option.none => Option.none
                   else Option.none
               | _, _ => Option.none)
          | _ => Option.none
      | Option.none => Option.none
  | _ => Option.none

/-! ### Error model and schema nodes -/

/-- `TRACE_SEP` from the source. -/
def TRACE_SEP : String := " --> "

/-- `ValidationError(value, message, trace)`. -/
structure VError where
  value : Value
  message : String
  trace : String

/-- An exception in flight: a `ValidationError`, or any other exception
(TypeError for malformed schemas and non-iterable inputs, AttributeError,
IndexError, ValueError from float()), which no `except ValidationError`
handler in the engine ever catches. -/
inductive Err where
  | vErr (e : VError)
  | typeErr (msg : String)

/-- Result of a condition predicate call: a returned truth value, or a
raised exception carrying its `args` payload. -/
inductive CondResult where
  | ret (b : Bool)
  | exc (args : List String)

/-- A condition predicate (`condition` option of the scalar variants). -/
def Cond : Type := Value → CondResult

/-- The always-true predicate substituted by `Type.__init__` when no
condition is passed. -/
def noCond : Cond := fun _ => .ret true

/-- A schema node: one scalar variant instance (`String`, `RegexString`,
`Number`, `Null`, `Date`, `Datetime`, `Boolean`, `Optional`, `Any`,
`Constant` — each constructor carries exactly the configuration its
Python `__init__` stores) or one of the three aggregate shapes (dict,
list, tuple).  Python defaults: `String(strict=True)`,
`Number(strict=False)`, `Boolean(strict=True)`, `condition` defaulting
to `noCond`. -/
inductive Schema where
  | string (strict : Bool) (cond : Cond)
  | regexString (pattern : String) (matchFn : String → Bool) (cond : Cond)
  | number (min max : Option ℚ) (strict : Bool) (cond : Cond)
  | null
  | date (cond : Cond)
  | datetime (cond : Cond)
  | boolean (strict : Bool)
  | optional (other : Schema)
  | any (types : List Schema)
  | constant (c : Value)
  | dict (fields : List (String × Schema))
  | list (elems : List Schema)
  | tuple (elems : List Schema)

/-- `type(self).__name__`, the trace leaf produced by `Type.invalid`. -/
def typeName : Schema → String
  | .string .. => "String"
  | .regexString .. => "RegexString"
  | .number .. => "Number"
  | .null => "Null"
  | .date .. => "Date"
  | .datetime .. => "Datetime"
  | .boolean .. => "Boolean"
  | .optional .. => "Optional"
  | .any .. => "Any"
  | .constant .. => "Constant"
  | _ => ""

/-- `Type.invalid(value, message)`. -/
def invalid (s : Schema) (v : Value) (msg : String) : Err :=
  .vErr ⟨v, msg, typeName s⟩

/-- The `condition` attribute as read by `getattr(self, 'condition',
None)` in `Type.get_parsed_value`: present (never `None`, thanks to the
default substitution in `Type.__init__`) on `String`, `RegexString`,
`Number`, `Date` and `Datetime`; absent on `Null`, `Boolean`,
`Optional`, `Any` and `Constant`, whose `__init__` methods never store
it (`Boolean.__init__(self, strict=True)` takes no condition). -/
def condOf : Schema → Option Cond
  | .string _ c => some c
  | .regexString _ _ c => some c
  | .number _ _ _ c => some c
  | .date c => some c
  | .datetime c => some c
  | _ => Option.none

/-- Whether a schema node is a `Type` instance (scalar variant), as
tested by `isinstance(schema, Type)` in the walker. -/
def Schema.isTypeNode : Schema → Bool
  | .dict _ | .list _ | .tuple _ => false
  | _ => true

/-- `isinstance(schema[k], Optional)`. -/
def Schema.isOptional : Schema → Bool
  | .optional _ => true
  | _ => false

/-- `Boolean.admissible_true`. -/
def admissible_true : List Value :=
  [.str "yes", .str "True", .str "true", .str "t", .str "1", .int 1]

/-- `Boolean.admissible_false`. -/
def admissible_false : List Value :=
  [.str "no", .str "False", .str "false", .str "f", .str "0", .int 0, .none]

/-- `isinstance(value, (int, float, decimal.Decimal))` — note that a
Python bool is an instance of int. -/
def isNumericInstance : Value → Bool
  | .int _ | .float _ | .decimal _ | .bool _ => true
  | _ => false

/-! ### Scalar `parse` methods that do not recurse -/

/-- Python `float(value)`; a failure is a plain ValueError/TypeError,
never caught by the engine. -/
def pyFloat : Value → Except Err ℚ
  | .int n => .ok (n : ℚ)
  | .float q => .ok q
  | .bool b => .ok (if b then 1 else 0)
  | .str s =>
      match parseFloatString s with
      | some q => .ok q
      | Option.none => .error (.typeErr "ValueError: could not convert string to float")
  | _ => .error (.typeErr "TypeError: float() argument must be a string or a number")

/-- `Number.parse`: Decimals pass through; otherwise `float(value)`,
normalised to an int when integral. -/
def numberParse (v : Value) : Except Err Value :=
  match v with
  | .decimal q => .ok (.decimal q)
  | _ => do
      let q ← pyFloat v
      pure (if q.den = 1 then .int q.num else .float q)

/-- `Boolean.parse`. -/
def booleanParse (v : Value) : Value :=
  match v with
  | .bool b => .bool b
  | _ => if pyIn v admissible_false then .bool false else .bool true

/-- `Date.parse`: strptime + calendar check; failure is rethrown as
`invalid(value, 'is an invalid date')`.  A non-str argument raises an
uncaught TypeError. -/
def dateParse (v : Value) : Except Err Value :=
  match v with
  | .str s =>
      match strptimeDate s with
      | some (y, m, d) => .ok (.pydate y m d)
      | Option.none => .error (.vErr ⟨.str s, "is an invalid date", "Date"⟩)
  | _ => .error (.typeErr "TypeError: strptime() argument 1 must be str")

/-- `Datetime.parse`: the three formats tried in declared order; if none
parses, `invalid(value, 'is an invalid datetime')`. -/
def datetimeParse (v : Value) : Except Err Value :=
  match v with
  | .str s =>
      match strptimeDatetime s false false with
      | some r => .ok r
      | Option.none =>
          match strptimeDatetime s true false with
          | some r => .ok r
          | Option.none =>
              match strptimeDatetime s true true with
              | some r => .ok r
              | Option.none => .error (.vErr ⟨.str s, "is an invalid datetime", "Datetime"⟩)
  | _ => .error (.typeErr "TypeError: strptime() argument 1 must be str")

/-- `RegexString.validate` (shared by `Date` and `Datetime` with their
fixed patterns): a failed or inapplicable match raises
`invalid(value, "doesn't match pattern <regex>")`.  `self.match` raises
(TypeError) on non-str input, which the `except Exception` handler turns
into the same error. -/
def regexValidate (s : Schema) (pattern : String) (matchFn : String → Bool)
    (v : Value) : Except Err Unit :=
  match v with
  | .str t =>
      if matchFn t then .ok ()
      else .error (invalid s v ("doesn\x27t match pattern " ++ pattern))
  | _ => .error (invalid s v ("doesn\x27t match pattern " ++ pattern))

/-! ### The structural walker -/

/-- First-occurrence lookup in a schema mapping (`schema[k]`). -/
def lookupSchema (k : String) : List (String × Schema) → Option Schema
  | [] => Option.none
  | (k₁, s) :: rest => if k₁ = k then some s else lookupSchema k rest

theorem lookupSchema_sizeOf {k : String} {fields : List (String × Schema)} {s : Schema}
    (h : lookupSchema k fields = some s) : sizeOf s < sizeOf fields := by
  induction fields with
  | nil => simp [lookupSchema] at h
  | cons p rest ih =>
      obtain ⟨k₁, s₁⟩ := p
      simp only [lookupSchema] at h
      split at h
      · cases h; simp; omega
      · have := ih h; simp; omega

/-- `k in variant` for a dict input. -/
def containsKey (kvs : List (String × Value)) (k : String) : Bool :=
  (lookupValue k kvs).isSome

/-- The first key the required-presence loop of `_validate` raises on:
the first schema key, in schema order, that is absent from the input and
whose node is not `Optional`. -/
def firstMissingKey (fields : List (String × Schema))
    (kvs : List (String × Value)) : Option String :=
  match fields with
  | [] => Option.none
  | (k, sub) :: rest =>
      if !containsKey kvs k && !sub.isOptional then some k
      else firstMissingKey rest kvs

/-- Python repr of a string key as used in trace segments. -/
def strRepr (k : String) : String := "\x27" ++ k ++ "\x27"

def objectSeg (k : String) : String := "Object(key:" ++ strRepr k ++ ")" ++ TRACE_SEP

def listSeg (i : Nat) : String := "List(index:" ++ toString i ++ ")" ++ TRACE_SEP

def tupleSeg (i : Nat) : String := "Tuple(index:" ++ toString i ++ ")" ++ TRACE_SEP

/-- The `except ValidationError: e.trace = current_trace + e.trace; raise`
pattern of the walker: prepend a trace prefix to a ValidationError in
flight; other exceptions pass through untouched. -/
def prependTrace (tr : String) : Except Err α → Except Err α
  | .error (.vErr e) => .error (.vErr ⟨e.value, e.message, tr ++ e.trace⟩)
  | r => r

/-- The `except ValidationError as e: raise self.invalid(e.value,
e.message, e.trace)` pattern of `Optional.validate` and `Optional.parse`:
re-wrap a ValidationError trace as `Optional(<inner trace>)`. -/
def wrapOptional : Except Err α → Except Err α
  | .error (.vErr e) => .error (.vErr ⟨e.value, e.message, "Optional(" ++ e.trace ++ ")"⟩)
  | r => r

mutual

/-- `_validate(variant, schema, current_trace)` from the source. -/
def validateTree (variant : Value) (schema : Schema) (tr : String) : Except Err Unit :=
  match schema with
  | .dict fields =>
      match variant with
      | .dict kvs =>
          (match firstMissingKey fields kvs with
           | some k =>
               .error (.vErr ⟨.dict kvs, "doesn\x27t have key \"" ++ k ++ "\"", tr ++ "Object"⟩)
           | Option.none => validateItems fields kvs tr)
      | v => .error (.vErr ⟨v, "is not an object", tr ++ "Object"⟩)
  | .list elems =>
      if elems.length > 1 then
        .error (.typeErr
          "schema is a list of more than one element; can be empty or have just one")
      else
        (match variant with
         | .list xs =>
             (match elems with
              | [] => .ok ()
              | s₀ :: _ => validateListItems s₀ xs 0 tr)
         | .tuple xs =>
             (match elems with
              | [] => .ok ()
              | s₀ :: _ => validateListItems s₀ xs 0 tr)
         | v => .error (.vErr ⟨v, "is not a list or tuple", tr ++ "List"⟩))
  | .tuple elems =>
      (match variant with
       | .list xs =>
           if elems.length ≠ xs.length then
             .error (.vErr ⟨.list xs,
               "has too " ++ (if xs.length < elems.length then "few" else "many")
                 ++ " elements (it requires " ++ toString elems.length ++ ")",
               tr ++ "Tuple"⟩)
           else validateTupleItems elems xs 0 tr
       | .tuple xs =>
           if elems.length ≠ xs.length then
             .error (.vErr ⟨.tuple xs,
               "has too " ++ (if xs.length < elems.length then "few" else "many")
                 ++ " elements (it requires " ++ toString elems.length ++ ")",
               tr ++ "Tuple"⟩)
           else validateTupleItems elems xs 0 tr
       | v => .error (.vErr ⟨v, "is not a list or tuple", tr ++ "Tuple"⟩))
  | s => prependTrace tr (typeValidate s variant)
termination_by (sizeOf schema, 5)

/-- The per-variant `validate` methods of the scalar variants. -/
def typeValidate (s : Schema) (v : Value) : Except Err Unit :=
  match s with
  | .string strict _ =>
      match v with
      | .str _ => .ok ()
      | _ => if strict then .error (invalid s v "is not a string") else .ok ()
  | .regexString pat f _ => regexValidate s pat f v
  | .number _ _ strict _ =>
      if isNumericInstance v then .ok ()
      else if strict then .error (invalid s v "is not a number")
      else
        match v with
        | .str t =>
            if matchDollar numberPatternCore t then .ok ()
            else .error (invalid s v "is not a validly formatted number")
        | _ => .error (invalid s v "is not a number")
  | .null =>
      match v with
      | .none => .ok ()
      | _ => .error (invalid s v "is not null")
  | .date _ => regexValidate s datePatternStr (matchDollar datePatternCore) v
  | .datetime _ => regexValidate s datetimePatternStr (matchDollar dtPatternCore) v
  | .boolean strict =>
      match v with
      | .bool _ => .ok ()
      | _ =>
          if strict then .error (invalid s v "is not boolean")
          else if !pyIn v admissible_true && !pyIn v admissible_false then
            .error (invalid s v "can\x27t be interpreted as boolean")
          else .ok ()
  | .optional other =>
      (match v with
       | .none => .ok ()
       | _ => wrapOptional (validateTree v other ""))
  | .any _ => .ok ()
  | .constant c =>
      if pyEq v c then .ok ()
      else .error (.vErr ⟨v, "is not equals to " ++ pyRepr c,
        "Constant(" ++ pyRepr c ++ ")"⟩)
  | .dict _ | .list _ | .tuple _ => .ok ()
termination_by (sizeOf s, 4)

/-- The `for k, v in variant.items(): if k in schema: _validate(...)`
loop of the dict branch: input pairs in input order, recursing only on
keys the schema declares. -/
def validateItems (fields : List (String × Schema)) (kvs : List (String × Value))
    (tr : String) : Except Err Unit :=
  match kvs with
  | [] => .ok ()
  | (k, v) :: rest =>
      match h : lookupSchema k fields with
      | some sub =>
          have _hsz : sizeOf sub < sizeOf fields := lookupSchema_sizeOf h
          (validateTree v sub (tr ++ objectSeg k)).bind
            (fun _ => validateItems fields rest tr)
      | Option.none => validateItems fields rest tr
termination_by (sizeOf fields, kvs.length + 6)

/-- The per-element loop of the (one-element) list branch of `_validate`. -/
def validateListItems (s₀ : Schema) (xs : List Value) (i : Nat) (tr : String) :
    Except Err Unit :=
  match xs with
  | [] => .ok ()
  | x :: rest =>
      (validateTree x s₀ (tr ++ listSeg i)).bind
        (fun _ => validateListItems s₀ rest (i + 1) tr)
termination_by (sizeOf s₀, xs.length + 6)

/-- The positional loop of the tuple branch of `_validate` (lengths are
already known to agree). -/
def validateTupleItems (elems : List Schema) (xs : List Value) (i : Nat)
    (tr : String) : Except Err Unit :=
  match elems, xs with
  | sub :: erest, x :: xrest =>
      (validateTree x sub (tr ++ tupleSeg i)).bind
        (fun _ => validateTupleItems erest xrest (i + 1) tr)
  | _, _ => .ok ()
termination_by (sizeOf elems, 6)

end

/-- `list(enumerate(variant))` essence: the element sequence obtained by
iterating a Python value (a str iterates to its characters, a dict to
its keys; non-iterables raise TypeError). -/
def iterElems : Value → Except Err (List Value)
  | .list xs => .ok xs
  | .tuple xs => .ok xs
  | .str s => .ok (s.data.map (fun c => .str (String.mk [c])))
  | .dict kvs => .ok (kvs.map (fun kv => .str kv.1))
  | _ => .error (.typeErr "TypeError: object is not iterable")

/-- The condition-predicate block of `Type.get_parsed_value`: when the
`condition` attribute exists, evaluate it on the parsed value; an
exception is rethrown as `invalid(value, e.args[0] or generic)`, a falsy
return as `invalid(value, generic)`. -/
def condCheck (s : Schema) (v parsed : Value) : Except Err Value :=
  match condOf s with
  | some c =>
      (match c parsed with
       | .ret true => .ok parsed
       | .ret false => .error (invalid s v "doesn\x27t meet the validation criterion")
       | .exc args =>
           .error (invalid s v (args.headD "doesn\x27t meet the validation criterion")))
  | Option.none => .ok parsed

/-- The min/max block of `Number.get_parsed_value` (identity on every
other variant): compare the parsed value against the configured bounds,
each violation with its own message naming the bound. -/
def boundsCheck (s : Schema) (v parsed : Value) : Except Err Value :=
  match s with
  | .number mi ma _ _ =>
      (match valToQ parsed with
       | some q =>
           (match mi with
            | some m =>
                if q < m then
                  .error (invalid s v ("is less than the minimum: " ++ pyNumStr m))
                else
                  (match ma with
                   | some M =>
                       if M < q then
                         .error (invalid s v ("is greater than the maximum: " ++ pyNumStr M))
                       else .ok parsed
                   | Option.none => .ok parsed)
            | Option.none =>
                (match ma with
                 | some M =>
                     if M < q then
                       .error (invalid s v ("is greater than the maximum: " ++ pyNumStr M))
                     else .ok parsed
                 | Option.none => .ok parsed))
       | Option.none => .error (.typeErr "TypeError: unorderable types"))
  | _ => .ok parsed

mutual

/-- `_parse(variant, schema, current_trace)` from the source. -/
def parseTree (variant : Value) (schema : Schema) (tr : String) : Except Err Value :=
  match schema with
  | .dict fields =>
      (match variant with
       | .dict kvs => (parseFields fields kvs tr).map Value.dict
       | _ => .error (.typeErr "AttributeError: object has no attribute get"))
  | .list elems =>
      (match elems with
       | [] => .ok (.list [])
       | s₀ :: _ =>
           (iterElems variant).bind
             (fun xs => (parseListItems s₀ xs 0 tr).map Value.list))
  | .tuple elems =>
      (iterElems variant).bind
        (fun xs => (parseTupleItems elems xs 0 tr).map Value.tuple)
  | s => prependTrace tr (getParsedValue s variant)
termination_by (sizeOf schema, 5)

/-- `get_parsed_value`: the shared `Type.get_parsed_value` (parse, then
the condition predicate when the attribute exists), with the `Number`
override appending the min/max bound checks afterwards. -/
def getParsedValue (s : Schema) (v : Value) : Except Err Value :=
  match s with
  | .number mi ma strict c =>
      ((typeParse (.number mi ma strict c) v).bind
          (condCheck (.number mi ma strict c) v)).bind
        (boundsCheck (.number mi ma strict c) v)
  | s => (typeParse s v).bind (condCheck s v)
termination_by (sizeOf s, 4)

/-- The per-variant `parse` methods. -/
def typeParse (s : Schema) (v : Value) : Except Err Value :=
  match s with
  | .string _ _ => .ok (.str (pyStr v))
  | .regexString _ _ _ => .ok v
  | .number _ _ _ _ => numberParse v
  | .null => .ok v
  | .date _ => dateParse v
  | .datetime _ => datetimeParse v
  | .boolean _ => .ok (booleanParse v)
  | .optional other =>
      (match v with
       | .none => .ok .none
       | _ => wrapOptional (parseTree v other ""))
  | .any ts => parseAnyAlts v ts []
  | .constant _ => .ok v
  | .dict _ | .list _ | .tuple _ => .ok v
termination_by (sizeOf s, 3)

/-- One alternative attempt of `Any.parse`: `_validate(value, t)` then
`_parse(value, t)`, both from the root trace. -/
def anyAttempt (v : Value) (t : Schema) : Except Err Value :=
  (validateTree v t "").bind (fun _ => parseTree v t "")
termination_by (sizeOf t, 7)

/-- `Any.parse`: try each alternative with a full validate-then-parse,
collecting ValidationErrors; when all alternatives failed, raise
`Any.invalid` with the joined traces. -/
def parseAnyAlts (v : Value) (ts : List Schema) (errs : List VError) :
    Except Err Value :=
  match ts with
  | [] =>
      .error (.vErr ⟨v, "doesn\x27t meet any allowed criterion",
        "Any(" ++ String.intercalate ", " (errs.map (·.trace)) ++ ")"⟩)
  | t :: rest =>
      match anyAttempt v t with
      | .ok r => .ok r
      | .error (.vErr e) => parseAnyAlts v rest (errs ++ [e])
      | .error (.typeErr m) => .error (.typeErr m)
termination_by (sizeOf ts, 6)

/-- The dict comprehension of `_parse`: iterate the schema fields in
schema order against `variant.get(k)` (absence becomes None). -/
def parseFields (fields : List (String × Schema)) (kvs : List (String × Value))
    (tr : String) : Except Err (List (String × Value)) :=
  match fields with
  | [] => .ok []
  | (k, sub) :: rest =>
      (parseTree ((lookupValue k kvs).getD .none) sub (tr ++ objectSeg k)).bind
        (fun r => (parseFields rest kvs tr).map (fun out => (k, r) :: out))
termination_by (sizeOf fields, 6)

/-- The list comprehension of `_parse`'s (one-element) list branch. -/
def parseListItems (s₀ : Schema) (xs : List Value) (i : Nat) (tr : String) :
    Except Err (List Value) :=
  match xs with
  | [] => .ok []
  | x :: rest =>
      (parseTree x s₀ (tr ++ listSeg i)).bind
        (fun r => (parseListItems s₀ rest (i + 1) tr).map (fun rs => r :: rs))
termination_by (sizeOf s₀, xs.length + 6)

/-- The tuple generator of `_parse`: iterate the input elements,
indexing into the schema tuple; if the input outruns the schema the
lookup `schema[i]` raises an uncaught IndexError; if the schema outruns
the input the generator just stops (a shorter tuple is produced). -/
def parseTupleItems (elems : List Schema) (xs : List Value) (i : Nat)
    (tr : String) : Except Err (List Value) :=
  match xs, elems with
  | [], _ => .ok []
  | _ :: _, [] => .error (.typeErr "IndexError: tuple index out of range")
  | x :: xrest, sub :: erest =>
      (parseTree x sub (tr ++ tupleSeg i)).bind
        (fun r => (parseTupleItems erest xrest (i + 1) tr).map (fun rs => r :: rs))
termination_by (sizeOf elems, 6)

end

/-- `clean(schema)` applied to an input: run the validate pass over the
whole input, then the parse pass. -/
def clean (schema : Schema) (variant : Value) : Except Err Value :=
  match validateTree variant schema "" with
  | .ok _ => parseTree variant schema ""
  | .error e => .error e

/-! ### Basic lemmas: strings and trace prefixing -/

theorem string_append_cancel_left {a b c : String} (h : a ++ b = a ++ c) : b = c := by
  have h2 : (a ++ b).data = (a ++ c).data := by rw [h]
  simp only [String.data_append] at h2
  exact String.ext (List.append_cancel_left h2)

theorem prependTrace_empty (r : Except Err α) : prependTrace "" r = r := by
  cases r with
  | ok x => rfl
  | error e =>
      cases e with
      | vErr e => simp [prependTrace, String.empty_append]
      | typeErr m => rfl

theorem prependTrace_prepend (a b : String) (r : Except Err α) :
    prependTrace a (prependTrace b r) = prependTrace (a ++ b) r := by
  cases r with
  | ok x => rfl
  | error e =>
      cases e with
      | vErr e => simp [prependTrace, String.append_assoc]
      | typeErr m => rfl

theorem prependTrace_okv (tr : String) (x : α) :
    prependTrace tr (Except.ok x : Except Err α) = .ok x := rfl

theorem prependTrace_verr (tr : String) (e : VError) :
    prependTrace tr (Except.error (Err.vErr e) : Except Err α)
      = .error (.vErr ⟨e.value, e.message, tr ++ e.trace⟩) := rfl

theorem prependTrace_terr (tr : String) (m : String) :
    prependTrace tr (Except.error (Err.typeErr m) : Except Err α)
      = .error (.typeErr m) := rfl

theorem exceptBind_ok (a : α) (f : α → Except Err β) :
    (Except.ok a : Except Err α).bind f = f a := rfl

theorem exceptBind_err (e : Err) (f : α → Except Err β) :
    (Except.error e : Except Err α).bind f = .error e := rfl

theorem exceptMap_ok (g : α → β) (a : α) :
    (Except.ok a : Except Err α).map g = .ok (g a) := rfl

theorem exceptMap_err (g : α → β) (e : Err) :
    (Except.error e : Except Err α).map g = .error e := rfl

theorem prependTrace_ok {r : Except Err α} {x : α} (tr : String) :
    prependTrace tr r = .ok x ↔ r = .ok x := by
  cases r with
  | ok y => simp [prependTrace]
  | error e => cases e <;> simp [prependTrace]

/-- The walker's dispatch for scalar (`Type`) nodes, validate pass:
delegate to the variant's `validate` and prefix the current trace. -/
theorem validateTree_scalar (s : Schema) (h : s.isTypeNode = true)
    (v : Value) (tr : String) :
    validateTree v s tr = prependTrace tr (typeValidate s v) := by
  cases s <;> simp_all [Schema.isTypeNode] <;> rw [validateTree] <;> simp

/-- The walker's dispatch for scalar (`Type`) nodes, parse pass:
delegate to the variant's `get_parsed_value` and prefix the current
trace. -/
theorem parseTree_scalar (s : Schema) (h : s.isTypeNode = true)
    (v : Value) (tr : String) :
    parseTree v s tr = prependTrace tr (getParsedValue s v) := by
  cases s <;> simp_all [Schema.isTypeNode] <;> rw [parseTree] <;> simp

/-! ### Trace threading is parametric

Each recursion level only ever appends its own segment to the trace
argument and prepends the accumulated prefix to a failure bubbling up,
so running a pass under any prefix equals running it under the empty
trace and prefixing afterwards. -/

/-- Unfolding of the dict-items loop at a cons cell. -/
theorem validateItems_cons (fields : List (String × Schema)) (k : String) (v : Value)
    (rest : List (String × Value)) (tr : String) :
    validateItems fields ((k, v) :: rest) tr =
      match lookupSchema k fields with
      | some sub => (validateTree v sub (tr ++ objectSeg k)).bind
          (fun _ => validateItems fields rest tr)
      | Option.none => validateItems fields rest tr := by
  rw [validateItems.eq_def]
  split
  next h => exact absurd h (by simp)
  next k₁ v₁ rest₁ h =>
    cases h
    split
    next sub h₂ =>
      conv_rhs => rw [h₂]
    next h₂ =>
      conv_rhs => rw [h₂]

theorem validate_trace_aux : ∀ n : Nat,
    (∀ s : Schema, sizeOf s ≤ n → ∀ v tr,
      validateTree v s tr = prependTrace tr (validateTree v s "")) ∧
    (∀ fields : List (String × Schema), sizeOf fields ≤ n → ∀ kvs tr,
      validateItems fields kvs tr = prependTrace tr (validateItems fields kvs "")) ∧
    (∀ s₀ : Schema, sizeOf s₀ ≤ n → ∀ xs i tr,
      validateListItems s₀ xs i tr = prependTrace tr (validateListItems s₀ xs i "")) ∧
    (∀ elems : List Schema, sizeOf elems ≤ n → ∀ xs i tr,
      validateTupleItems elems xs i tr = prependTrace tr (validateTupleItems elems xs i "")) := by
  intro n
  induction n using Nat.strong_induction_on with
  | _ n IH =>
    have hT : ∀ s : Schema, sizeOf s ≤ n → ∀ v tr,
        validateTree v s tr = prependTrace tr (validateTree v s "") := by
      intro s hs v tr
      by_cases hty : s.isTypeNode = true
      · rw [validateTree_scalar s hty, validateTree_scalar s hty, prependTrace_prepend,
          String.append_empty]
      · cases s <;> try exact absurd rfl hty
        next fields =>
          have hf : sizeOf fields < n := by
            have h1 : sizeOf fields < sizeOf (Schema.dict fields) := by simp <;> omega
            omega
          cases v
          case dict kvs =>
            cases h : firstMissingKey fields kvs with
            | some k =>
                simp [validateTree, h, prependTrace_verr, String.empty_append]
            | none =>
                simp only [validateTree, h]
                exact (IH (sizeOf fields) hf).2.1 fields le_rfl kvs tr
          all_goals simp [validateTree, prependTrace_verr, String.empty_append]
        next elems =>
          cases elems with
          | nil =>
              cases v
              all_goals
                simp [validateTree, prependTrace_okv, prependTrace_verr, String.empty_append]
          | cons s₀ rest =>
              cases rest with
              | cons s₁ r2 =>
                  have hc : (s₀ :: s₁ :: r2).length > 1 := by simp
                  cases v
                  all_goals simp [validateTree, hc, prependTrace_terr]
              | nil =>
                  have hs₀ : sizeOf s₀ < n := by
                    have h1 : sizeOf s₀ < sizeOf (Schema.list [s₀]) := by simp <;> omega
                    omega
                  have hc : ¬((s₀ :: (List.nil : List Schema)).length > 1) := by simp
                  cases v
                  case list xs =>
                    simp only [validateTree, hc, ite_false, if_false, reduceIte]
                    exact (IH (sizeOf s₀) hs₀).2.2.1 s₀ le_rfl xs 0 tr
                  case tuple xs =>
                    simp only [validateTree, hc, ite_false, if_false, reduceIte]
                    exact (IH (sizeOf s₀) hs₀).2.2.1 s₀ le_rfl xs 0 tr
                  all_goals
                    simp [validateTree, hc, prependTrace_verr, String.empty_append]
        next elems =>
          have he : sizeOf elems < n := by
            have h1 : sizeOf elems < sizeOf (Schema.tuple elems) := by simp <;> omega
            omega
          cases v
          case list xs =>
            by_cases hlen : elems.length ≠ xs.length
            · simp [validateTree, hlen, prependTrace_verr, String.empty_append]
            · simp only [validateTree]
              rw [if_neg hlen, if_neg hlen]
              exact (IH (sizeOf elems) he).2.2.2 elems le_rfl xs 0 tr
          case tuple xs =>
            by_cases hlen : elems.length ≠ xs.length
            · simp [validateTree, hlen, prependTrace_verr, String.empty_append]
            · simp only [validateTree]
              rw [if_neg hlen, if_neg hlen]
              exact (IH (sizeOf elems) he).2.2.2 elems le_rfl xs 0 tr
          all_goals simp [validateTree, prependTrace_verr, String.empty_append]
    refine ⟨hT, ?_, ?_, ?_⟩
    · intro fields hf kvs tr
      induction kvs with
      | nil => simp [validateItems, prependTrace_okv]
      | cons kv rest ihl =>
          obtain ⟨k, v⟩ := kv
          cases h : lookupSchema k fields with
          | none =>
              rw [validateItems_cons, validateItems_cons]
              simp only [h]
              exact ihl
          | some sub =>
              have hsub : sizeOf sub ≤ n := le_of_lt (lt_of_lt_of_le (lookupSchema_sizeOf h) hf)
              rw [validateItems_cons, validateItems_cons]
              simp only [h]
              rw [hT sub hsub v (tr ++ objectSeg k), hT sub hsub v ("" ++ objectSeg k),
                String.empty_append]
              cases hr : validateTree v sub "" with
              | ok u =>
                  simp only [prependTrace_okv, exceptBind_ok]
                  exact ihl
              | error e =>
                  cases e with
                  | vErr e =>
                      simp [prependTrace_verr, exceptBind_err, String.append_assoc]
                  | typeErr m =>
                      simp [prependTrace_terr, exceptBind_err, prependTrace]
    · intro s₀ hs₀ xs i tr
      induction xs generalizing i with
      | nil => simp [validateListItems, prependTrace_okv]
      | cons x rest ihl =>
          simp only [validateListItems]
          rw [hT s₀ hs₀ x (tr ++ listSeg i), hT s₀ hs₀ x ("" ++ listSeg i),
            String.empty_append]
          cases hr : validateTree x s₀ "" with
          | ok u =>
              simp only [prependTrace_okv, exceptBind_ok]
              exact ihl (i + 1)
          | error e =>
              cases e with
              | vErr e => simp [prependTrace_verr, exceptBind_err, String.append_assoc]
              | typeErr m => simp [prependTrace_terr, exceptBind_err, prependTrace]
    · intro elems he xs i tr
      induction elems generalizing xs i with
      | nil =>
          cases xs <;> simp [validateTupleItems, prependTrace_okv, prependTrace_terr]
      | cons sub erest ihl =>
          cases xs with
          | nil => simp [validateTupleItems, prependTrace_okv]
          | cons x xrest =>
              have hsub : sizeOf sub ≤ n := by
                have h1 : sizeOf sub < sizeOf (sub :: erest) := by simp <;> omega
                omega
              have herest : sizeOf erest ≤ n := by
                have h1 : sizeOf erest < sizeOf (sub :: erest) := by simp <;> omega
                omega
              simp only [validateTupleItems]
              rw [hT sub hsub x (tr ++ tupleSeg i), hT sub hsub x ("" ++ tupleSeg i),
                String.empty_append]
              cases hr : validateTree x sub "" with
              | ok u =>
                  simp only [prependTrace_okv, exceptBind_ok]
                  exact ihl herest xrest (i + 1)
              | error e =>
                  cases e with
                  | vErr e => simp [prependTrace_verr, exceptBind_err, String.append_assoc]
                  | typeErr m => simp [prependTrace_terr, exceptBind_err, prependTrace]

/-- Validate-pass trace parametricity. -/
theorem validateTree_trace (v : Value) (s : Schema) (tr : String) :
    validateTree v s tr = prependTrace tr (validateTree v s "") :=
  (validate_trace_aux (sizeOf s)).1 s le_rfl v tr

theorem validateItems_trace (fields : List (String × Schema)) (kvs : List (String × Value))
    (tr : String) :
    validateItems fields kvs tr = prependTrace tr (validateItems fields kvs "") :=
  (validate_trace_aux (sizeOf fields)).2.1 fields le_rfl kvs tr

theorem validateListItems_trace (s₀ : Schema) (xs : List Value) (i : Nat) (tr : String) :
    validateListItems s₀ xs i tr = prependTrace tr (validateListItems s₀ xs i "") :=
  (validate_trace_aux (sizeOf s₀)).2.2.1 s₀ le_rfl xs i tr

theorem validateTupleItems_trace (elems : List Schema) (xs : List Value) (i : Nat)
    (tr : String) :
    validateTupleItems elems xs i tr = prependTrace tr (validateTupleItems elems xs i "") :=
  (validate_trace_aux (sizeOf elems)).2.2.2 elems le_rfl xs i tr

theorem prependTrace_map (tr : String) (g : α → β) (r : Except Err α) :
    (prependTrace tr r).map g = prependTrace tr (r.map g) := by
  cases r with
  | ok x => rfl
  | error e => cases e <;> rfl

/-- `iterElems` either yields the element list or raises a TypeError;
it never raises a ValidationError. -/
theorem iterElems_cases (v : Value) :
    (∃ xs, iterElems v = .ok xs) ∨
      iterElems v = .error (.typeErr "TypeError: object is not iterable") := by
  cases v <;> simp [iterElems]

theorem parse_trace_aux : ∀ n : Nat,
    (∀ s : Schema, sizeOf s ≤ n → ∀ v tr,
      parseTree v s tr = prependTrace tr (parseTree v s "")) ∧
    (∀ fields : List (String × Schema), sizeOf fields ≤ n → ∀ kvs tr,
      parseFields fields kvs tr = prependTrace tr (parseFields fields kvs "")) ∧
    (∀ s₀ : Schema, sizeOf s₀ ≤ n → ∀ xs i tr,
      parseListItems s₀ xs i tr = prependTrace tr (parseListItems s₀ xs i "")) ∧
    (∀ elems : List Schema, sizeOf elems ≤ n → ∀ xs i tr,
      parseTupleItems elems xs i tr = prependTrace tr (parseTupleItems elems xs i "")) := by
  intro n
  induction n using Nat.strong_induction_on with
  | _ n IH =>
    have hT : ∀ s : Schema, sizeOf s ≤ n → ∀ v tr,
        parseTree v s tr = prependTrace tr (parseTree v s "") := by
      intro s hs v tr
      by_cases hty : s.isTypeNode = true
      · rw [parseTree_scalar s hty, parseTree_scalar s hty, prependTrace_prepend,
          String.append_empty]
      · cases s <;> try exact absurd rfl hty
        next fields =>
          have hf : sizeOf fields < n := by
            have h1 : sizeOf fields < sizeOf (Schema.dict fields) := by simp <;> omega
            omega
          cases v
          case dict kvs =>
            simp only [parseTree]
            rw [(IH (sizeOf fields) hf).2.1 fields le_rfl kvs tr, prependTrace_map]
          all_goals simp [parseTree, prependTrace_terr]
        next elems =>
          cases elems with
          | nil => simp [parseTree, prependTrace_okv]
          | cons s₀ rest =>
              have hs₀ : sizeOf s₀ < n := by
                have h1 : sizeOf s₀ < sizeOf (Schema.list (s₀ :: rest)) := by simp <;> omega
                omega
              simp only [parseTree]
              rcases iterElems_cases v with ⟨xs, hi⟩ | hi <;> rw [hi]
              · simp only [exceptBind_ok]
                rw [(IH (sizeOf s₀) hs₀).2.2.1 s₀ le_rfl xs 0 tr, prependTrace_map]
              · simp [exceptBind_err, prependTrace_terr]
        next elems =>
          have he : sizeOf elems < n := by
            have h1 : sizeOf elems < sizeOf (Schema.tuple elems) := by simp <;> omega
            omega
          simp only [parseTree]
          rcases iterElems_cases v with ⟨xs, hi⟩ | hi <;> rw [hi]
          · simp only [exceptBind_ok]
            rw [(IH (sizeOf elems) he).2.2.2 elems le_rfl xs 0 tr, prependTrace_map]
          · simp [exceptBind_err, prependTrace_terr]
    refine ⟨hT, ?_, ?_, ?_⟩
    · intro fields hf kvs tr
      induction fields with
      | nil => simp [parseFields, prependTrace_okv]
      | cons p rest ihl =>
          obtain ⟨k, sub⟩ := p
          have hsub : sizeOf sub ≤ n := by
            have h1 : sizeOf sub < sizeOf ((k, sub) :: rest) := by simp <;> omega
            omega
          have hrest : sizeOf rest ≤ n := by
            have h1 : sizeOf rest < sizeOf ((k, sub) :: rest) := by simp <;> omega
            omega
          simp only [parseFields]
          rw [hT sub hsub ((lookupValue k kvs).getD .none) (tr ++ objectSeg k),
            hT sub hsub ((lookupValue k kvs).getD .none) ("" ++ objectSeg k),
            String.empty_append]
          cases hr : parseTree ((lookupValue k kvs).getD .none) sub "" with
          | ok r =>
              simp only [prependTrace_okv, exceptBind_ok]
              rw [ihl hrest, prependTrace_map]
          | error e =>
              cases e with
              | vErr e => simp [prependTrace_verr, exceptBind_err, String.append_assoc]
              | typeErr m => simp [prependTrace_terr, exceptBind_err, prependTrace]
    · intro s₀ hs₀ xs i tr
      induction xs generalizing i with
      | nil => simp [parseListItems, prependTrace_okv]
      | cons x rest ihl =>
          simp only [parseListItems]
          rw [hT s₀ hs₀ x (tr ++ listSeg i), hT s₀ hs₀ x ("" ++ listSeg i),
            String.empty_append]
          cases hr : parseTree x s₀ "" with
          | ok r =>
              simp only [prependTrace_okv, exceptBind_ok]
              rw [ihl (i + 1), prependTrace_map]
          | error e =>
              cases e with
              | vErr e => simp [prependTrace_verr, exceptBind_err, String.append_assoc]
              | typeErr m => simp [prependTrace_terr, exceptBind_err, prependTrace]
    · intro elems he xs i tr
      induction elems generalizing xs i with
      | nil =>
          cases xs <;> simp [parseTupleItems, prependTrace_okv, prependTrace_terr]
      | cons sub erest ihl =>
          cases xs with
          | nil => simp [parseTupleItems, prependTrace_okv]
          | cons x xrest =>
              have hsub : sizeOf sub ≤ n := by
                have h1 : sizeOf sub < sizeOf (sub :: erest) := by simp <;> omega
                omega
              have herest : sizeOf erest ≤ n := by
                have h1 : sizeOf erest < sizeOf (sub :: erest) := by simp <;> omega
                omega
              simp only [parseTupleItems]
              rw [hT sub hsub x (tr ++ tupleSeg i), hT sub hsub x ("" ++ tupleSeg i),
                String.empty_append]
              cases hr : parseTree x sub "" with
              | ok r =>
                  simp only [prependTrace_okv, exceptBind_ok]
                  rw [ihl herest xrest (i + 1), prependTrace_map]
              | error e =>
                  cases e with
                  | vErr e => simp [prependTrace_verr, exceptBind_err, String.append_assoc]
                  | typeErr m => simp [prependTrace_terr, exceptBind_err, prependTrace]

/-- Parse-pass trace parametricity: each recursion level prepends its own
segment to the trace already carried by an inner failure. -/
theorem parseTree_trace (v : Value) (s : Schema) (tr : String) :
    parseTree v s tr = prependTrace tr (parseTree v s "") :=
  (parse_trace_aux (sizeOf s)).1 s le_rfl v tr

theorem parseFields_trace (fields : List (String × Schema)) (kvs : List (String × Value))
    (tr : String) :
    parseFields fields kvs tr = prependTrace tr (parseFields fields kvs "") :=
  (parse_trace_aux (sizeOf fields)).2.1 fields le_rfl kvs tr

theorem parseListItems_trace (s₀ : Schema) (xs : List Value) (i : Nat) (tr : String) :
    parseListItems s₀ xs i tr = prependTrace tr (parseListItems s₀ xs i "") :=
  (parse_trace_aux (sizeOf s₀)).2.2.1 s₀ le_rfl xs i tr

theorem parseTupleItems_trace (elems : List Schema) (xs : List Value) (i : Nat)
    (tr : String) :
    parseTupleItems elems xs i tr = prependTrace tr (parseTupleItems elems xs i "") :=
  (parse_trace_aux (sizeOf elems)).2.2.2 elems le_rfl xs i tr

/-! ### Characterisations of the validate-pass loops -/

theorem validateListItems_ok_iff (s₀ : Schema) (xs : List Value) (i : Nat) (tr : String) :
    validateListItems s₀ xs i tr = .ok () ↔ ∀ x ∈ xs, validateTree x s₀ "" = .ok () := by
  induction xs generalizing i tr with
  | nil => simp [validateListItems]
  | cons x rest ih =>
      simp only [validateListItems]
      rw [validateTree_trace x s₀ (tr ++ listSeg i)]
      cases hr : validateTree x s₀ "" with
      | ok u =>
          cases u
          simp only [prependTrace_okv, exceptBind_ok]
          simp [List.forall_mem_cons, hr, ih (i + 1) tr]
      | error e =>
          cases e with
          | vErr e =>
              simp [prependTrace_verr, exceptBind_err, List.forall_mem_cons, hr]
          | typeErr m =>
              simp [prependTrace_terr, exceptBind_err, List.forall_mem_cons, hr]

theorem validateListItems_first_err (s₀ : Schema) (pre : List Value) (x : Value)
    (post : List Value) (i : Nat) (tr : String) (e : VError)
    (hpre : ∀ y ∈ pre, validateTree y s₀ "" = .ok ())
    (hx : validateTree x s₀ "" = .error (.vErr e)) :
    validateListItems s₀ (pre ++ x :: post) i tr =
      .error (.vErr ⟨e.value, e.message, tr ++ listSeg (i + pre.length) ++ e.trace⟩) := by
  induction pre generalizing i with
  | nil =>
      simp only [List.nil_append, validateListItems]
      rw [validateTree_trace x s₀ (tr ++ listSeg i), hx]
      simp [prependTrace_verr, exceptBind_err]
  | cons y pre₁ ih =>
      simp only [List.cons_append, validateListItems]
      rw [validateTree_trace y s₀ (tr ++ listSeg i), hpre y (by simp)]
      simp only [prependTrace_okv, exceptBind_ok]
      rw [ih (i + 1) (fun z hz => hpre z (by simp [hz]))]
      have h3 : i + 1 + pre₁.length = i + (y :: pre₁).length := by simp <;> omega
      rw [h3]

theorem validateTupleItems_ok_iff (elems : List Schema) (xs : List Value) (i : Nat)
    (tr : String) :
    validateTupleItems elems xs i tr = .ok () ↔
      ∀ p ∈ elems.zip xs, validateTree p.2 p.1 "" = .ok () := by
  induction elems generalizing xs i with
  | nil => simp [validateTupleItems]
  | cons sub erest ih =>
      cases xs with
      | nil => simp [validateTupleItems]
      | cons x xrest =>
          simp only [validateTupleItems]
          rw [validateTree_trace x sub (tr ++ tupleSeg i)]
          cases hr : validateTree x sub "" with
          | ok u =>
              cases u
              simp only [prependTrace_okv, exceptBind_ok]
              simp [List.zip_cons_cons, List.forall_mem_cons, hr, ih xrest (i + 1)]
          | error e =>
              cases e with
              | vErr e =>
                  simp [prependTrace_verr, exceptBind_err, List.zip_cons_cons,
                    List.forall_mem_cons, hr]
              | typeErr m =>
                  simp [prependTrace_terr, exceptBind_err, List.zip_cons_cons,
                    List.forall_mem_cons, hr]

theorem validateTupleItems_first_err (spre : List Schema) (s₁ : Schema)
    (spost : List Schema) (vpre : List Value) (x : Value) (vpost : List Value)
    (i : Nat) (tr : String) (e : VError)
    (hlen : vpre.length = spre.length)
    (hpre : ∀ p ∈ spre.zip vpre, validateTree p.2 p.1 "" = .ok ())
    (hx : validateTree x s₁ "" = .error (.vErr e)) :
    validateTupleItems (spre ++ s₁ :: spost) (vpre ++ x :: vpost) i tr =
      .error (.vErr ⟨e.value, e.message, tr ++ tupleSeg (i + spre.length) ++ e.trace⟩) := by
  induction spre generalizing vpre i with
  | nil =>
      cases vpre with
      | nil =>
          simp only [List.nil_append, validateTupleItems]
          rw [validateTree_trace x s₁ (tr ++ tupleSeg i), hx]
          simp [prependTrace_verr, exceptBind_err]
      | cons _ _ => simp at hlen
  | cons sub spre₁ ih =>
      cases vpre with
      | nil => simp at hlen
      | cons y vpre₁ =>
          simp only [List.cons_append, validateTupleItems]
          rw [validateTree_trace y sub (tr ++ tupleSeg i),
            hpre (sub, y) (by simp [List.zip_cons_cons])]
          simp only [prependTrace_okv, exceptBind_ok]
          have hlen₁ : vpre₁.length = spre₁.length := by simp at hlen; omega
          rw [ih vpre₁ (i + 1) hlen₁ (fun p hp => hpre p (by simp [List.zip_cons_cons, hp]))]
          have h3 : i + 1 + spre₁.length = i + (sub :: spre₁).length := by simp <;> omega
          rw [h3]

theorem validateItems_ok_iff (fields : List (String × Schema))
    (kvs : List (String × Value)) (tr : String) :
    validateItems fields kvs tr = .ok () ↔
      ∀ p ∈ kvs, ∀ sub, lookupSchema p.1 fields = some sub →
        validateTree p.2 sub "" = .ok () := by
  induction kvs with
  | nil => simp [validateItems]
  | cons p rest ih =>
      obtain ⟨k, v⟩ := p
      cases h : lookupSchema k fields with
      | none =>
          rw [validateItems_cons]
          simp [List.forall_mem_cons, h, ih]
      | some sub =>
          rw [validateItems_cons]
          simp only [h]
          rw [validateTree_trace v sub (tr ++ objectSeg k)]
          cases hr : validateTree v sub "" with
          | ok u =>
              cases u
              simp [prependTrace_okv, exceptBind_ok, List.forall_mem_cons, h, hr, ih]
          | error e =>
              cases e with
              | vErr e =>
                  simp [prependTrace_verr, exceptBind_err, List.forall_mem_cons, h, hr]
              | typeErr m =>
                  simp [prependTrace_terr, exceptBind_err, List.forall_mem_cons, h, hr]

theorem validateItems_first_err (fields : List (String × Schema))
    (pre : List (String × Value)) (k : String) (v : Value)
    (post : List (String × Value)) (tr : String) (sub : Schema) (e : VError)
    (hpre : ∀ p ∈ pre, ∀ sub₁, lookupSchema p.1 fields = some sub₁ →
      validateTree p.2 sub₁ "" = .ok ())
    (hk : lookupSchema k fields = some sub)
    (hx : validateTree v sub "" = .error (.vErr e)) :
    validateItems fields (pre ++ (k, v) :: post) tr =
      .error (.vErr ⟨e.value, e.message, tr ++ objectSeg k ++ e.trace⟩) := by
  induction pre with
  | nil =>
      simp only [List.nil_append]
      rw [validateItems_cons]
      simp only [hk]
      rw [validateTree_trace v sub (tr ++ objectSeg k), hx]
      simp [prependTrace_verr, exceptBind_err]
  | cons p pre₁ ih =>
      obtain ⟨k₁, v₁⟩ := p
      simp only [List.cons_append]
      cases h₁ : lookupSchema k₁ fields with
      | none =>
          rw [validateItems_cons]
          simp only [h₁]
          exact ih (fun p hp => hpre p (by simp [hp]))
      | some sub₁ =>
          rw [validateItems_cons]
          simp only [h₁]
          rw [validateTree_trace v₁ sub₁ (tr ++ objectSeg k₁),
            hpre (k₁, v₁) (by simp) sub₁ h₁]
          simp only [prependTrace_okv, exceptBind_ok]
          exact ih (fun p hp => hpre p (by simp [hp]))

theorem validateItems_err_trace (fields : List (String × Schema))
    (kvs : List (String × Value)) (tr : String) (e : VError)
    (h : validateItems fields kvs tr = .error (.vErr e)) :
    ∃ k rest₁, e.trace = (tr ++ objectSeg k) ++ rest₁ := by
  induction kvs with
  | nil => simp [validateItems] at h
  | cons p rest ih =>
      obtain ⟨k, v⟩ := p
      rw [validateItems_cons] at h
      cases h₁ : lookupSchema k fields with
      | none =>
          simp only [h₁] at h
          exact ih h
      | some sub =>
          simp only [h₁] at h
          rw [validateTree_trace v sub (tr ++ objectSeg k)] at h
          cases hr : validateTree v sub "" with
          | ok u =>
              rw [hr] at h
              simp only [prependTrace_okv, exceptBind_ok] at h
              exact ih h
          | error e₁ =>
              cases e₁ with
              | vErr e₁ =>
                  rw [hr] at h
                  simp only [prependTrace_verr, exceptBind_err, Except.error.injEq,
                    Err.vErr.injEq] at h
                  exact ⟨k, e₁.trace, by rw [← h]⟩
              | typeErr m =>
                  rw [hr] at h
                  simp [prependTrace_terr, exceptBind_err] at h

/-! ### Characterisations of the required-key check -/

theorem firstMissingKey_none_iff (fields : List (String × Schema))
    (kvs : List (String × Value)) :
    firstMissingKey fields kvs = Option.none ↔
      ∀ p ∈ fields, p.2.isOptional = true ∨ containsKey kvs p.1 = true := by
  induction fields with
  | nil => simp [firstMissingKey]
  | cons p rest ih =>
      obtain ⟨k, sub⟩ := p
      simp only [firstMissingKey, List.forall_mem_cons]
      by_cases hc : !containsKey kvs k && !sub.isOptional
      · simp only [hc, if_pos]
        simp only [Bool.and_eq_true, Bool.not_eq_true'] at hc
        simp [hc.1, hc.2]
      · simp only [hc, if_neg, Bool.not_eq_true]
        simp only [Bool.and_eq_true, Bool.not_eq_true'] at hc
        rw [ih]
        constructor
        · intro h2
          refine ⟨?_, h2⟩
          by_cases ho : sub.isOptional = true
          · exact Or.inl ho
          · right
            rcases Bool.eq_false_or_eq_true (containsKey kvs k) with hck | hck
            · exact hck
            · exact absurd ⟨hck, by revert ho; simp⟩ hc
        · intro h2
          exact h2.2

theorem firstMissingKey_some_split (pre : List (String × Schema)) (k : String)
    (sub : Schema) (post : List (String × Schema)) (kvs : List (String × Value))
    (hpre : ∀ p ∈ pre, p.2.isOptional = true ∨ containsKey kvs p.1 = true)
    (hmiss : containsKey kvs k = false) (hreq : sub.isOptional = false) :
    firstMissingKey (pre ++ (k, sub) :: post) kvs = some k := by
  induction pre with
  | nil => simp [firstMissingKey, hmiss, hreq]
  | cons p pre₁ ih =>
      obtain ⟨k₁, sub₁⟩ := p
      simp only [List.cons_append, firstMissingKey]
      rcases hpre (k₁, sub₁) (by simp) with ho | hc
      · simp only [ho]
        simp only [Bool.not_true, Bool.and_false, if_neg, Bool.false_eq_true, ite_false]
        exact ih (fun p hp => hpre p (by simp [hp]))
      · simp only [hc]
        simp only [Bool.not_true, Bool.false_and, if_neg, Bool.false_eq_true, ite_false]
        exact ih (fun p hp => hpre p (by simp [hp]))

theorem firstMissingKey_some_missing (fields : List (String × Schema))
    (kvs : List (String × Value)) (k : String)
    (h : firstMissingKey fields kvs = some k) :
    ∃ sub, (k, sub) ∈ fields ∧ sub.isOptional = false ∧ containsKey kvs k = false := by
  induction fields with
  | nil => simp [firstMissingKey] at h
  | cons p rest ih =>
      obtain ⟨k₁, sub₁⟩ := p
      simp only [firstMissingKey] at h
      by_cases hc : !containsKey kvs k₁ && !sub₁.isOptional
      · rw [if_pos hc] at h
        cases h
        simp only [Bool.and_eq_true, Bool.not_eq_true'] at hc
        exact ⟨sub₁, by simp, hc.2, hc.1⟩
      · rw [if_neg hc] at h
        obtain ⟨sub, hmem, hopt, hck⟩ := ih h
        exact ⟨sub, by simp [hmem], hopt, hck⟩

/-! ### Unfoldings of the walker dispatch -/

theorem validateTree_dict (fields : List (String × Schema)) (kvs : List (String × Value))
    (tr : String) :
    validateTree (.dict kvs) (.dict fields) tr =
      match firstMissingKey fields kvs with
      | some k =>
          .error (.vErr ⟨.dict kvs, "doesn\x27t have key \"" ++ k ++ "\"", tr ++ "Object"⟩)
      | Option.none => validateItems fields kvs tr := by
  cases h : firstMissingKey fields kvs <;> simp [validateTree, h]

theorem validateTree_listSchema_nil_list (xs : List Value) (tr : String) :
    validateTree (.list xs) (.list []) tr = .ok () := by
  simp [validateTree]

theorem validateTree_listSchema_nil_tuple (xs : List Value) (tr : String) :
    validateTree (.tuple xs) (.list []) tr = .ok () := by
  simp [validateTree]

theorem validateTree_listSchema_one_list (s₀ : Schema) (xs : List Value) (tr : String) :
    validateTree (.list xs) (.list [s₀]) tr = validateListItems s₀ xs 0 tr := by
  simp [validateTree]

theorem validateTree_listSchema_one_tuple (s₀ : Schema) (xs : List Value) (tr : String) :
    validateTree (.tuple xs) (.list [s₀]) tr = validateListItems s₀ xs 0 tr := by
  simp [validateTree]

theorem validateTree_tupleSchema_list (elems : List Schema) (xs : List Value)
    (tr : String) (hlen : elems.length = xs.length) :
    validateTree (.list xs) (.tuple elems) tr = validateTupleItems elems xs 0 tr := by
  simp [validateTree, hlen]

theorem validateTree_tupleSchema_tuple (elems : List Schema) (xs : List Value)
    (tr : String) (hlen : elems.length = xs.length) :
    validateTree (.tuple xs) (.tuple elems) tr = validateTupleItems elems xs 0 tr := by
  simp [validateTree, hlen]

theorem parseTree_dict (fields : List (String × Schema)) (kvs : List (String × Value))
    (tr : String) :
    parseTree (.dict kvs) (.dict fields) tr = (parseFields fields kvs tr).map Value.dict := by
  simp [parseTree]

theorem parseTree_listSchema_nil (v : Value) (tr : String) :
    parseTree v (.list []) tr = .ok (.list []) := by
  simp [parseTree]

theorem parseTree_listSchema_cons (s₀ : Schema) (rest : List Schema) (v : Value)
    (tr : String) :
    parseTree v (.list (s₀ :: rest)) tr =
      (iterElems v).bind (fun xs => (parseListItems s₀ xs 0 tr).map Value.list) := by
  simp [parseTree]

theorem parseTree_tupleSchema (elems : List Schema) (v : Value) (tr : String) :
    parseTree v (.tuple elems) tr =
      (iterElems v).bind (fun xs => (parseTupleItems elems xs 0 tr).map Value.tuple) := by
  simp [parseTree]

/-! ### Characterisations of the parse-pass loops -/

theorem parseFields_ok_iff (fields : List (String × Schema)) (kvs : List (String × Value))
    (tr : String) (out : List (String × Value)) :
    parseFields fields kvs tr = .ok out ↔
      List.Forall₂ (fun (p : String × Schema) (r : String × Value) =>
        r.1 = p.1 ∧ parseTree ((lookupValue p.1 kvs).getD .none) p.2 "" = .ok r.2)
        fields out := by
  induction fields generalizing out with
  | nil =>
      simp only [parseFields]
      constructor
      · intro h
        cases h
        exact List.Forall₂.nil
      · intro h
        cases h
        rfl
  | cons p rest ih =>
      obtain ⟨k, sub⟩ := p
      simp only [parseFields]
      rw [parseTree_trace _ sub (tr ++ objectSeg k)]
      cases hr : parseTree ((lookupValue k kvs).getD Value.none) sub "" with
      | ok r =>
          simp only [prependTrace_okv, exceptBind_ok]
          cases hrest : parseFields rest kvs tr with
          | ok out₁ =>
              simp only [exceptMap_ok]
              constructor
              · intro h
                cases h
                exact List.Forall₂.cons ⟨rfl, hr⟩ ((ih out₁).mp hrest)
              · intro h
                cases h with
                | cons hp hrest₂ =>
                    next r₁ out₂ =>
                      obtain ⟨hk₁, hp₂⟩ := hp
                      have : out₂ = out₁ := by
                        have h₁ := (ih out₂).mpr hrest₂
                        rw [h₁] at hrest
                        cases hrest
                        rfl
                      subst this
                      rw [hp₂] at hr
                      cases hr
                      obtain ⟨r₁k, r₁v⟩ := r₁
                      simp only at hk₁
                      subst hk₁
                      rfl
          | error e =>
              simp only [exceptMap_err]
              constructor
              · intro h
                cases h
              · intro h
                cases h with
                | cons hp hrest₂ =>
                    have h₁ := (ih _).mpr hrest₂
                    rw [h₁] at hrest
                    cases hrest
      | error e =>
          constructor
          · intro h
            cases e <;> simp [prependTrace_verr, prependTrace_terr, exceptBind_err] at h
          · intro h
            cases h with
            | cons hp hrest₂ =>
                obtain ⟨hk₁, hp₂⟩ := hp
                rw [hp₂] at hr
                cases hr

theorem parseListItems_ok_iff (s₀ : Schema) (xs : List Value) (i : Nat) (tr : String)
    (rs : List Value) :
    parseListItems s₀ xs i tr = .ok rs ↔
      List.Forall₂ (fun x r => parseTree x s₀ "" = .ok r) xs rs := by
  induction xs generalizing i rs with
  | nil =>
      simp only [parseListItems]
      constructor
      · intro h
        cases h
        exact List.Forall₂.nil
      · intro h
        cases h
        rfl
  | cons x rest ih =>
      simp only [parseListItems]
      rw [parseTree_trace x s₀ (tr ++ listSeg i)]
      cases hr : parseTree x s₀ "" with
      | ok r =>
          simp only [prependTrace_okv, exceptBind_ok]
          cases hrest : parseListItems s₀ rest (i + 1) tr with
          | ok rs₁ =>
              simp only [exceptMap_ok]
              constructor
              · intro h
                cases h
                exact List.Forall₂.cons hr ((ih (i + 1) rs₁).mp hrest)
              · intro h
                cases h with
                | cons hp hrest₂ =>
                    have h₁ := (ih (i + 1) _).mpr hrest₂
                    rw [h₁] at hrest
                    cases hrest
                    rw [hp] at hr
                    cases hr
                    rfl
          | error e =>
              simp only [exceptMap_err]
              constructor
              · intro h
                cases h
              · intro h
                cases h with
                | cons hp hrest₂ =>
                    have h₁ := (ih (i + 1) _).mpr hrest₂
                    rw [h₁] at hrest
                    cases hrest
      | error e =>
          constructor
          · intro h
            cases e <;> simp [prependTrace_verr, prependTrace_terr, exceptBind_err] at h
          · intro h
            cases h with
            | cons hp hrest₂ =>
                rw [hp] at hr
                cases hr

theorem parseTupleItems_ok_iff (elems : List Schema) (xs : List Value) (i : Nat)
    (tr : String) (rs : List Value) :
    parseTupleItems elems xs i tr = .ok rs ↔
      xs.length ≤ elems.length ∧
        List.Forall₂ (fun (p : Value × Schema) r => parseTree p.1 p.2 "" = .ok r)
          (xs.zip elems) rs := by
  induction xs generalizing elems i rs with
  | nil =>
      simp only [parseTupleItems]
      constructor
      · intro h
        cases h
        exact ⟨by simp, by simp [List.Forall₂.nil]⟩
      · intro h
        obtain ⟨-, h₂⟩ := h
        simp only [List.zip_nil_left] at h₂
        cases h₂
        rfl
  | cons x xrest ih =>
      cases elems with
      | nil =>
          simp only [parseTupleItems]
          constructor
          · intro h
            cases h
          · intro h
            simp at h
      | cons sub erest =>
          simp only [parseTupleItems]
          rw [parseTree_trace x sub (tr ++ tupleSeg i)]
          cases hr : parseTree x sub "" with
          | ok r =>
              simp only [prependTrace_okv, exceptBind_ok]
              cases hrest : parseTupleItems erest xrest (i + 1) tr with
              | ok rs₁ =>
                  simp only [exceptMap_ok]
                  constructor
                  · intro h
                    cases h
                    obtain ⟨hl, hf⟩ := (ih erest (i + 1) rs₁).mp hrest
                    exact ⟨by simp [hl], by
                      rw [List.zip_cons_cons]
                      exact List.Forall₂.cons hr hf⟩
                  · intro h
                    obtain ⟨hl, hf⟩ := h
                    simp only [List.zip_cons_cons] at hf
                    cases hf with
                    | cons hp hrest₂ =>
                        have h₁ := (ih erest (i + 1) _).mpr ⟨by simp at hl; omega, hrest₂⟩
                        rw [h₁] at hrest
                        cases hrest
                        rw [hp] at hr
                        cases hr
                        rfl
              | error e =>
                  simp only [exceptMap_err]
                  constructor
                  · intro h
                    cases h
                  · intro h
                    obtain ⟨hl, hf⟩ := h
                    simp only [List.zip_cons_cons] at hf
                    cases hf with
                    | cons hp hrest₂ =>
                        have h₁ := (ih erest (i + 1) _).mpr ⟨by simp at hl; omega, hrest₂⟩
                        rw [h₁] at hrest
                        cases hrest
          | error e =>
              constructor
              · intro h
                cases e <;> simp [prependTrace_verr, prependTrace_terr, exceptBind_err] at h
              · intro h
                obtain ⟨hl, hf⟩ := h
                simp only [List.zip_cons_cons] at hf
                cases hf with
                | cons hp hrest₂ =>
                    rw [hp] at hr
                    cases hr

/-! ### The first-match-of-alternatives loop -/

theorem anyAttempt_ok_iff (v : Value) (t : Schema) (r : Value) :
    anyAttempt v t = .ok r ↔
      validateTree v t "" = .ok () ∧ parseTree v t "" = .ok r := by
  simp only [anyAttempt]
  cases hv : validateTree v t "" with
  | ok u =>
      cases u
      simp [exceptBind_ok]
  | error e =>
      simp only [exceptBind_err]
      constructor
      · intro h
        cases h
      · intro h
        cases h.1

theorem parseAnyAlts_cons_ok (v : Value) (t : Schema) (rest : List Schema)
    (errs : List VError) (r : Value) (h : anyAttempt v t = .ok r) :
    parseAnyAlts v (t :: rest) errs = .ok r := by
  simp [parseAnyAlts, h]

theorem parseAnyAlts_cons_err (v : Value) (t : Schema) (rest : List Schema)
    (errs : List VError) (e : VError) (h : anyAttempt v t = .error (.vErr e)) :
    parseAnyAlts v (t :: rest) errs = parseAnyAlts v rest (errs ++ [e]) := by
  simp [parseAnyAlts, h]

theorem parseAnyAlts_first_ok (v : Value) (ts₁ : List Schema) (t : Schema)
    (ts₂ : List Schema) (errs : List VError) (r : Value)
    (hfail : ∀ t₁ ∈ ts₁, ∃ e, anyAttempt v t₁ = .error (.vErr e))
    (hok : anyAttempt v t = .ok r) :
    parseAnyAlts v (ts₁ ++ t :: ts₂) errs = .ok r := by
  induction ts₁ generalizing errs with
  | nil => simpa using parseAnyAlts_cons_ok v t ts₂ errs r hok
  | cons t₁ ts₁r ih =>
      obtain ⟨e, he⟩ := hfail t₁ (by simp)
      rw [List.cons_append, parseAnyAlts_cons_err v t₁ _ errs e he]
      exact ih (errs ++ [e]) (fun t₂ ht₂ => hfail t₂ (by simp [ht₂]))

theorem parseAnyAlts_all_fail (v : Value) (ts : List Schema) (es : List VError)
    (errs : List VError)
    (hfail : List.Forall₂ (fun t e => anyAttempt v t = .error (.vErr e)) ts es) :
    parseAnyAlts v ts errs =
      .error (.vErr ⟨v, "doesn\x27t meet any allowed criterion",
        "Any(" ++ String.intercalate ", " ((errs ++ es).map (·.trace)) ++ ")"⟩) := by
  induction hfail generalizing errs with
  | nil => simp [parseAnyAlts]
  | cons hte hrest ih =>
      next t e ts₁ es₁ =>
        rw [parseAnyAlts_cons_err v t ts₁ errs e hte, ih (errs ++ [e])]
        simp

theorem parseAnyAlts_ok_mem (v : Value) (ts : List Schema) (errs : List VError)
    (r : Value) (h : parseAnyAlts v ts errs = .ok r) :
    ∃ t ∈ ts, anyAttempt v t = .ok r := by
  induction ts generalizing errs with
  | nil => simp [parseAnyAlts] at h
  | cons t rest ih =>
      cases ha : anyAttempt v t with
      | ok r₁ =>
          rw [parseAnyAlts_cons_ok v t rest errs r₁ ha] at h
          cases h
          exact ⟨t, by simp, ha⟩
      | error e =>
          cases e with
          | vErr e =>
              rw [parseAnyAlts_cons_err v t rest errs e ha] at h
              obtain ⟨t₁, ht₁, ha₁⟩ := ih (errs ++ [e]) h
              exact ⟨t₁, by simp [ht₁], ha₁⟩
          | typeErr m =>
              simp [parseAnyAlts, ha] at h

/-! ### Optional combinator unfoldings -/

theorem typeValidate_optional_none (other : Schema) :
    typeValidate (.optional other) .none = .ok () := by
  simp [typeValidate]

theorem typeValidate_optional_some (other : Schema) (v : Value) (h : v ≠ .none) :
    typeValidate (.optional other) v = wrapOptional (validateTree v other "") := by
  cases v <;> simp [typeValidate] <;> simp at h

theorem typeParse_optional_none (other : Schema) :
    typeParse (.optional other) .none = .ok .none := by
  simp [typeParse]

theorem typeParse_optional_some (other : Schema) (v : Value) (h : v ≠ .none) :
    typeParse (.optional other) v = wrapOptional (parseTree v other "") := by
  cases v <;> simp [typeParse] <;> simp at h

theorem getParsedValue_optional (other : Schema) (v : Value) :
    getParsedValue (.optional other) v = typeParse (.optional other) v := by
  simp only [getParsedValue, condOf, condCheck]
  cases h : typeParse (.optional other) v with
  | ok r => simp [exceptBind_ok, condCheck, condOf]
  | error e => simp [exceptBind_err]

theorem getParsedValue_any (ts : List Schema) (v : Value) :
    getParsedValue (.any ts) v = parseAnyAlts v ts [] := by
  simp only [getParsedValue, condOf, condCheck]
  cases h : typeParse (.any ts) v with
  | ok r =>
      simp only [exceptBind_ok]
      simp only [condCheck, condOf]
      simp only [typeParse] at h
      rw [h]
  | error e =>
      simp only [exceptBind_err]
      simp only [typeParse] at h
      rw [h]

/-! ### Spec-side definitions

`specMirrors` renders the specification sentence "the coerced output
mirrors the schema container shape" (spec sections 3 and 8): a mapping
schema must produce a mapping with exactly the schema keys, a sequence
schema a list (empty for the empty schema list), a tuple schema a tuple
of the schema arity, an optional either the absence sentinel or a value
mirroring the wrapped node, an alternatives node a value mirroring one
alternative; scalar leaves are unconstrained.  `schemaWF` captures the
well-formedness every Python schema literal has by construction: dict
keys are unique (a Python dict cannot hold duplicate keys). -/

mutual

def specMirrors : Schema → Value → Bool
  | .dict fields, v =>
      (match v with
       | .dict out => specMirrorsFields fields out
       | _ => false)
  | .list elems, v =>
      (match v with
       | .list out =>
           (match elems with
            | [] => out.isEmpty
            | s₀ :: _ => specMirrorsList s₀ out)
       | _ => false)
  | .tuple elems, v =>
      (match v with
       | .tuple out => specMirrorsTuple elems out
       | _ => false)
  | .optional o, v =>
      (match v with
       | .none => true
       | _ => specMirrors o v)
  | .any ts, v => specMirrorsAny ts v
  | _, _ => true
termination_by s _ => (sizeOf s, 0)

def specMirrorsFields : List (String × Schema) → List (String × Value) → Bool
  | [], [] => true
  | (k, sub) :: fr, (k₁, r) :: orr =>
      k = k₁ && specMirrors sub r && specMirrorsFields fr orr
  | _, _ => false
termination_by fr _ => (sizeOf fr, 1)

def specMirrorsList (s₀ : Schema) (out : List Value) : Bool :=
  match out with
  | [] => true
  | x :: rest => specMirrors s₀ x && specMirrorsList s₀ rest
termination_by (sizeOf s₀, out.length + 1)

def specMirrorsTuple : List Schema → List Value → Bool
  | [], [] => true
  | sub :: er, x :: xr => specMirrors sub x && specMirrorsTuple er xr
  | _, _ => false
termination_by er _ => (sizeOf er, 1)

def specMirrorsAny : List Schema → Value → Bool
  | [], _ => false
  | t :: rest, v => specMirrors t v || specMirrorsAny rest v
termination_by ts _ => (sizeOf ts, 1)

end

/-- Key uniqueness of a mapping schema. -/
def keysNodup : List String → Bool
  | [] => true
  | k :: rest => !rest.contains k && keysNodup rest

mutual

/-- Well-formedness every Python-constructed schema has: mapping keys
unique at every dict node (Python dict literals cannot repeat keys). -/
def schemaWF : Schema → Bool
  | .dict fields => keysNodup (fields.map Prod.fst) && schemaWFFields fields
  | .list elems => schemaWFList elems
  | .tuple elems => schemaWFList elems
  | .optional o => schemaWF o
  | .any ts => schemaWFList ts
  | _ => true
termination_by s => (sizeOf s, 1)

def schemaWFFields : List (String × Schema) → Bool
  | [] => true
  | (_, sub) :: rest => schemaWF sub && schemaWFFields rest
termination_by fr => (sizeOf fr, 0)

def schemaWFList : List Schema → Bool
  | [] => true
  | t :: rest => schemaWF t && schemaWFList rest
termination_by ts => (sizeOf ts, 0)

end

/-! ### Small list lemmas -/

theorem wrapOptional_ok {r : Except Err α} {x : α} :
    wrapOptional r = .ok x ↔ r = .ok x := by
  cases r with
  | ok y => simp [wrapOptional]
  | error e => cases e <;> simp [wrapOptional]

theorem lookupValue_mem {k : String} {kvs : List (String × Value)} {w : Value}
    (h : lookupValue k kvs = some w) : (k, w) ∈ kvs := by
  induction kvs with
  | nil => simp [lookupValue] at h
  | cons p rest ih =>
      obtain ⟨k₁, v₁⟩ := p
      simp only [lookupValue] at h
      split at h
      · next heq =>
          cases h
          subst heq
          simp
      · simp [ih h]

theorem lookupSchema_of_mem_nodup {k : String} {sub : Schema}
    {fields : List (String × Schema)}
    (hnod : keysNodup (fields.map Prod.fst) = true) (hmem : (k, sub) ∈ fields) :
    lookupSchema k fields = some sub := by
  induction fields with
  | nil => simp at hmem
  | cons p rest ih =>
      obtain ⟨k₁, s₁⟩ := p
      simp only [List.map_cons, keysNodup, Bool.and_eq_true, Bool.not_eq_true'] at hnod
      rcases List.mem_cons.mp hmem with heq | hmem₁
      · cases heq
        simp [lookupSchema]
      · have hk : k₁ ≠ k := by
          intro heq
          subst heq
          have : k₁ ∈ rest.map Prod.fst := by
            exact List.mem_map.mpr ⟨(k₁, sub), hmem₁, rfl⟩
          have hcontra : (List.map Prod.fst rest).contains k₁ = true :=
            List.elem_iff.mpr this
          rw [hnod.1] at hcontra
          cases hcontra
        simp only [lookupSchema, if_neg hk]
        exact ih hnod.2 hmem₁

theorem forall₂_imp_mem {α β : Type} {P Q : α → β → Prop} :
    ∀ {l₁ : List α} {l₂ : List β}, List.Forall₂ P l₁ l₂ →
      (∀ a b, a ∈ l₁ → P a b → Q a b) → List.Forall₂ Q l₁ l₂ := by
  intro l₁ l₂ h himp
  induction h with
  | nil => exact .nil
  | cons hp hrest ih =>
      exact .cons (himp _ _ (by simp) hp)
        (ih (fun a b ha hp₂ => himp a b (by simp [ha]) hp₂))

theorem schemaWFFields_mem {fields : List (String × Schema)} {p : String × Schema}
    (h : schemaWFFields fields = true) (hp : p ∈ fields) : schemaWF p.2 = true := by
  induction fields with
  | nil => simp at hp
  | cons q rest ih =>
      obtain ⟨k₁, s₁⟩ := q
      simp only [schemaWFFields, Bool.and_eq_true] at h
      rcases List.mem_cons.mp hp with heq | hmem
      · subst heq
        exact h.1
      · exact ih h.2 hmem

theorem schemaWFList_mem {ts : List Schema} {t : Schema}
    (h : schemaWFList ts = true) (ht : t ∈ ts) : schemaWF t = true := by
  induction ts with
  | nil => simp at ht
  | cons q rest ih =>
      simp only [schemaWFList, Bool.and_eq_true] at h
      rcases List.mem_cons.mp ht with heq | hmem
      · subst heq
        exact h.1
      · exact ih h.2 hmem

theorem specMirrorsAny_of_mem {ts : List Schema} {t : Schema} {v : Value}
    (ht : t ∈ ts) (h : specMirrors t v = true) : specMirrorsAny ts v = true := by
  induction ts with
  | nil => simp at ht
  | cons q rest ih =>
      rcases List.mem_cons.mp ht with heq | hmem
      · subst heq
        simp [specMirrorsAny, h]
      · simp [specMirrorsAny, ih hmem]

theorem specMirrorsFields_of_forall₂ {fields : List (String × Schema)}
    {out : List (String × Value)}
    (h : List.Forall₂ (fun (p : String × Schema) (r : String × Value) =>
      r.1 = p.1 ∧ specMirrors p.2 r.2 = true) fields out) :
    specMirrorsFields fields out = true := by
  induction h with
  | nil => simp [specMirrorsFields]
  | cons hp hrest ih =>
      next p r _ _ =>
        obtain ⟨k, sub⟩ := p
        obtain ⟨k₁, rv⟩ := r
        obtain ⟨hk, hm⟩ := hp
        simp only at hk
        subst hk
        simp [specMirrorsFields, hm, ih]

theorem specMirrorsList_of_forall {s₀ : Schema} {rs : List Value}
    (h : ∀ r ∈ rs, specMirrors s₀ r = true) : specMirrorsList s₀ rs = true := by
  induction rs with
  | nil => simp [specMirrorsList]
  | cons r rest ih =>
      simp [specMirrorsList, h r (by simp), ih (fun x hx => h x (by simp [hx]))]

theorem forall₂_mem_right {α β : Type} {P : α → β → Prop} :
    ∀ {l₁ : List α} {l₂ : List β}, List.Forall₂ P l₁ l₂ →
      ∀ b ∈ l₂, ∃ a ∈ l₁, P a b := by
  intro l₁ l₂ h
  induction h with
  | nil => simp
  | cons hp hrest ih =>
      intro b hb
      rcases List.mem_cons.mp hb with heq | hmem
      · subst heq
        exact ⟨_, by simp, hp⟩
      · obtain ⟨a, ha, hpa⟩ := ih b hmem
        exact ⟨a, by simp [ha], hpa⟩

theorem specMirrorsTuple_of_forall₂ {elems : List Schema} :
    ∀ {xs : List Value} {rs : List Value},
      List.Forall₂ (fun (p : Value × Schema) r => specMirrors p.2 r = true)
        (xs.zip elems) rs →
      xs.length = elems.length → specMirrorsTuple elems rs = true := by
  induction elems with
  | nil =>
      intro xs rs h hlen
      cases xs with
      | nil =>
          simp only [List.zip_nil_left] at h
          cases h
          simp [specMirrorsTuple]
      | cons _ _ => simp at hlen
  | cons sub erest ih =>
      intro xs rs h hlen
      cases xs with
      | nil => simp at hlen
      | cons x xrest =>
          simp only [List.zip_cons_cons] at h
          cases h with
          | cons hp hrest =>
              simp only [List.length_cons] at hlen
              simp [specMirrorsTuple, hp, ih hrest (by omega)]

theorem isOptional_iff {s : Schema} :
    s.isOptional = true ↔ ∃ o, s = .optional o := by
  cases s <;> simp [Schema.isOptional]

theorem mem_zip_swap {α β : Type} {a : α} {b : β} :
    ∀ {l₁ : List α} {l₂ : List β}, (a, b) ∈ l₁.zip l₂ → (b, a) ∈ l₂.zip l₁ := by
  intro l₁
  induction l₁ with
  | nil =>
      intro l₂ h
      simp [List.zip_nil_left] at h
  | cons x xr ih =>
      intro l₂ h
      cases l₂ with
      | nil => simp at h
      | cons y yr =>
          simp only [List.zip_cons_cons, List.mem_cons] at h ⊢
          rcases h with heq | hmem
          · simp only [Prod.mk.injEq] at heq
            exact Or.inl (by simp [heq.1, heq.2])
          · exact Or.inr (ih hmem)

/-- If the validate pass accepts a (well-formed) schema/input pair and
the parse pass completes, the parsed value mirrors the schema shape. -/
theorem shape_aux : ∀ n : Nat, ∀ s : Schema, sizeOf s ≤ n → ∀ v r tr₁ tr₂,
    schemaWF s = true → validateTree v s tr₁ = .ok () → parseTree v s tr₂ = .ok r →
    specMirrors s r = true := by
  intro n
  induction n using Nat.strong_induction_on with
  | _ n IH =>
    intro s hs v r tr₁ tr₂ hwf hv hp
    cases s with
    | string strict c => simp [specMirrors]
    | regexString pat f c => simp [specMirrors]
    | number mi ma st c => simp [specMirrors]
    | null => simp [specMirrors]
    | date c => simp [specMirrors]
    | datetime c => simp [specMirrors]
    | boolean st => simp [specMirrors]
    | constant c => simp [specMirrors]
    | optional o =>
        have ho : sizeOf o < n := by
          have h1 : sizeOf o < sizeOf (Schema.optional o) := by simp <;> omega
          omega
        rw [parseTree_scalar (.optional o) rfl, prependTrace_ok, getParsedValue_optional] at hp
        by_cases hvn : v = Value.none
        · subst hvn
          rw [typeParse_optional_none] at hp
          cases hp
          simp [specMirrors]
        · rw [typeParse_optional_some o v hvn, wrapOptional_ok] at hp
          rw [validateTree_scalar (.optional o) rfl, prependTrace_ok,
            typeValidate_optional_some o v hvn, wrapOptional_ok] at hv
          simp only [schemaWF] at hwf
          have hm := IH (sizeOf o) ho o le_rfl v r "" "" hwf hv hp
          cases r <;> simp_all [specMirrors]
    | any ts =>
        have hts : sizeOf ts < n := by
          have h1 : sizeOf ts < sizeOf (Schema.any ts) := by simp <;> omega
          omega
        rw [parseTree_scalar (.any ts) rfl, prependTrace_ok, getParsedValue_any] at hp
        obtain ⟨t, htmem, hatt⟩ := parseAnyAlts_ok_mem v ts [] r hp
        obtain ⟨hv₁, hp₁⟩ := (anyAttempt_ok_iff v t r).mp hatt
        have htsz : sizeOf t < n := lt_trans (List.sizeOf_lt_of_mem htmem) hts
        simp only [schemaWF] at hwf
        have hm := IH (sizeOf t) htsz t le_rfl v r "" "" (schemaWFList_mem hwf htmem) hv₁ hp₁
        simp only [specMirrors]
        exact specMirrorsAny_of_mem htmem hm
    | dict fields =>
        have hfsz : sizeOf fields < n := by
          have h1 : sizeOf fields < sizeOf (Schema.dict fields) := by simp <;> omega
          omega
        cases v
        case dict kvs =>
          rw [parseTree_dict] at hp
          cases hpf : parseFields fields kvs tr₂ with
          | error e =>
              rw [hpf] at hp
              simp [exceptMap_err] at hp
          | ok out =>
              rw [hpf] at hp
              simp only [exceptMap_ok, Except.ok.injEq] at hp
              subst hp
              rw [validateTree_dict] at hv
              cases hfm : firstMissingKey fields kvs with
              | some k =>
                  rw [hfm] at hv
                  cases hv
              | none =>
                  rw [hfm] at hv
                  have hvAll := (validateItems_ok_iff fields kvs tr₁).mp hv
                  have hmissAll := (firstMissingKey_none_iff fields kvs).mp hfm
                  simp only [schemaWF, Bool.and_eq_true] at hwf
                  obtain ⟨hnod, hwfF⟩ := hwf
                  have hforall := (parseFields_ok_iff fields kvs tr₂ out).mp hpf
                  simp only [specMirrors]
                  apply specMirrorsFields_of_forall₂
                  apply forall₂_imp_mem hforall
                  intro p rr hpmem hP
                  obtain ⟨k, sub⟩ := p
                  obtain ⟨hkeq, hparse⟩ := hP
                  have hsubsz : sizeOf sub < n := by
                    have h1 := List.sizeOf_lt_of_mem hpmem
                    have h2 : sizeOf sub < sizeOf (k, sub) := by simp <;> omega
                    omega
                  refine ⟨hkeq, ?_⟩
                  cases hlv : lookupValue k kvs with
                  | some w =>
                      rw [hlv] at hparse
                      simp only [Option.getD_some] at hparse
                      have hkvmem := lookupValue_mem hlv
                      have hls := lookupSchema_of_mem_nodup hnod hpmem
                      have hvw := hvAll (k, w) hkvmem sub hls
                      exact IH (sizeOf sub) hsubsz sub le_rfl w rr.2 "" ""
                        (schemaWFFields_mem hwfF hpmem) hvw hparse
                  | none =>
                      rw [hlv] at hparse
                      simp only [Option.getD_none] at hparse
                      have hopt : sub.isOptional = true := by
                        rcases hmissAll (k, sub) hpmem with h₁ | h₁
                        · exact h₁
                        · rw [containsKey, hlv] at h₁
                          simp at h₁
                      obtain ⟨o, rfl⟩ := isOptional_iff.mp hopt
                      rw [parseTree_scalar (.optional o) rfl, prependTrace_ok,
                        getParsedValue_optional, typeParse_optional_none] at hparse
                      injection hparse with h2
                      rw [← h2]
                      simp [specMirrors]
        all_goals simp [parseTree] at hp
    | list elems =>
        cases elems with
        | nil =>
            rw [parseTree_listSchema_nil] at hp
            cases hp
            simp [specMirrors]
        | cons s₀ rest =>
            cases rest with
            | cons s₁ r2 =>
                cases v <;> simp [validateTree] at hv
            | nil =>
                have hs₀ : sizeOf s₀ < n := by
                  have h1 : sizeOf s₀ < sizeOf (Schema.list [s₀]) := by simp <;> omega
                  omega
                have hwf₀ : schemaWF s₀ = true := by
                  simp [schemaWF, schemaWFList] at hwf
                  exact hwf
                cases v
                case list xs =>
                  rw [validateTree_listSchema_one_list] at hv
                  have hvAll := (validateListItems_ok_iff s₀ xs 0 tr₁).mp hv
                  rw [parseTree_listSchema_cons] at hp
                  simp only [iterElems, exceptBind_ok] at hp
                  cases hpl : parseListItems s₀ xs 0 tr₂ with
                  | error e =>
                      rw [hpl] at hp
                      simp [exceptMap_err] at hp
                  | ok rs =>
                      rw [hpl] at hp
                      simp only [exceptMap_ok, Except.ok.injEq] at hp
                      subst hp
                      have hforall := (parseListItems_ok_iff s₀ xs 0 tr₂ rs).mp hpl
                      simp only [specMirrors]
                      apply specMirrorsList_of_forall
                      intro rr hrr
                      obtain ⟨x, hx, hparse⟩ := forall₂_mem_right hforall rr hrr
                      exact IH (sizeOf s₀) hs₀ s₀ le_rfl x rr "" "" hwf₀ (hvAll x hx) hparse
                case tuple xs =>
                  rw [validateTree_listSchema_one_tuple] at hv
                  have hvAll := (validateListItems_ok_iff s₀ xs 0 tr₁).mp hv
                  rw [parseTree_listSchema_cons] at hp
                  simp only [iterElems, exceptBind_ok] at hp
                  cases hpl : parseListItems s₀ xs 0 tr₂ with
                  | error e =>
                      rw [hpl] at hp
                      simp [exceptMap_err] at hp
                  | ok rs =>
                      rw [hpl] at hp
                      simp only [exceptMap_ok, Except.ok.injEq] at hp
                      subst hp
                      have hforall := (parseListItems_ok_iff s₀ xs 0 tr₂ rs).mp hpl
                      simp only [specMirrors]
                      apply specMirrorsList_of_forall
                      intro rr hrr
                      obtain ⟨x, hx, hparse⟩ := forall₂_mem_right hforall rr hrr
                      exact IH (sizeOf s₀) hs₀ s₀ le_rfl x rr "" "" hwf₀ (hvAll x hx) hparse
                all_goals simp [validateTree] at hv
    | tuple elems =>
        have hesz : sizeOf elems < n := by
          have h1 : sizeOf elems < sizeOf (Schema.tuple elems) := by simp <;> omega
          omega
        have hwfL : schemaWFList elems = true := by
          simpa [schemaWF] using hwf
        cases v
        case list xs =>
          by_cases hlen : elems.length = xs.length
          · rw [validateTree_tupleSchema_list elems xs tr₁ hlen] at hv
            have hvAll := (validateTupleItems_ok_iff elems xs 0 tr₁).mp hv
            rw [parseTree_tupleSchema] at hp
            simp only [iterElems, exceptBind_ok] at hp
            cases hpt : parseTupleItems elems xs 0 tr₂ with
            | error e =>
                rw [hpt] at hp
                simp [exceptMap_err] at hp
            | ok rs =>
                rw [hpt] at hp
                simp only [exceptMap_ok, Except.ok.injEq] at hp
                subst hp
                obtain ⟨hle, hforall⟩ := (parseTupleItems_ok_iff elems xs 0 tr₂ rs).mp hpt
                simp only [specMirrors]
                apply specMirrorsTuple_of_forall₂ ?_ hlen.symm
                apply forall₂_imp_mem hforall
                intro p rr hpmem hparse
                obtain ⟨x, sub⟩ := p
                have hswap := mem_zip_swap hpmem
                obtain ⟨hxmem, hsubmem⟩ := List.of_mem_zip hpmem
                have hsubsz : sizeOf sub < n := lt_trans (List.sizeOf_lt_of_mem hsubmem) hesz
                exact IH (sizeOf sub) hsubsz sub le_rfl x rr "" ""
                  (schemaWFList_mem hwfL hsubmem) (hvAll (sub, x) hswap) hparse
          · simp [validateTree, hlen] at hv
        case tuple xs =>
          by_cases hlen : elems.length = xs.length
          · rw [validateTree_tupleSchema_tuple elems xs tr₁ hlen] at hv
            have hvAll := (validateTupleItems_ok_iff elems xs 0 tr₁).mp hv
            rw [parseTree_tupleSchema] at hp
            simp only [iterElems, exceptBind_ok] at hp
            cases hpt : parseTupleItems elems xs 0 tr₂ with
            | error e =>
                rw [hpt] at hp
                simp [exceptMap_err] at hp
            | ok rs =>
                rw [hpt] at hp
                simp only [exceptMap_ok, Except.ok.injEq] at hp
                subst hp
                obtain ⟨hle, hforall⟩ := (parseTupleItems_ok_iff elems xs 0 tr₂ rs).mp hpt
                simp only [specMirrors]
                apply specMirrorsTuple_of_forall₂ ?_ hlen.symm
                apply forall₂_imp_mem hforall
                intro p rr hpmem hparse
                obtain ⟨x, sub⟩ := p
                have hswap := mem_zip_swap hpmem
                obtain ⟨hxmem, hsubmem⟩ := List.of_mem_zip hpmem
                have hsubsz : sizeOf sub < n := lt_trans (List.sizeOf_lt_of_mem hsubmem) hesz
                exact IH (sizeOf sub) hsubsz sub le_rfl x rr "" ""
                  (schemaWFList_mem hwfL hsubmem) (hvAll (sub, x) hswap) hparse
          · simp [validateTree, hlen] at hv
        all_goals simp [validateTree] at hv

theorem forall₂_mem_left {α β : Type} {P : α → β → Prop} :
    ∀ {l₁ : List α} {l₂ : List β}, List.Forall₂ P l₁ l₂ →
      ∀ a ∈ l₁, ∃ b ∈ l₂, P a b := by
  intro l₁ l₂ h
  induction h with
  | nil => simp
  | cons hp hrest ih =>
      intro a ha
      rcases List.mem_cons.mp ha with heq | hmem
      · subst heq
        exact ⟨_, by simp, hp⟩
      · obtain ⟨b, hb, hpb⟩ := ih a hmem
        exact ⟨b, by simp [hb], hpb⟩

theorem lookupSchema_isSome_of_mem {k : String} {sub : Schema}
    {fields : List (String × Schema)} (h : (k, sub) ∈ fields) :
    (lookupSchema k fields).isSome = true := by
  induction fields with
  | nil => simp at h
  | cons p rest ih =>
      obtain ⟨k₁, s₁⟩ := p
      simp only [lookupSchema]
      by_cases hk : k₁ = k
      · simp [hk]
      · rcases List.mem_cons.mp h with heq | hmem
        · cases heq
          simp at hk
        · simp [hk, ih hmem]

theorem lookupValue_filter_schemaKeys (fields : List (String × Schema))
    (kvs : List (String × Value)) (k : String)
    (hk : (lookupSchema k fields).isSome = true) :
    lookupValue k (kvs.filter (fun p => (lookupSchema p.1 fields).isSome)) =
      lookupValue k kvs := by
  induction kvs with
  | nil => simp [lookupValue]
  | cons p rest ih =>
      obtain ⟨k₁, v₁⟩ := p
      by_cases hkeep : (lookupSchema k₁ fields).isSome = true
      · rw [List.filter_cons_of_pos (by simpa using hkeep)]
        simp only [lookupValue]
        by_cases hkk : k₁ = k
        · simp [hkk]
        · simp [hkk, ih]
      · rw [List.filter_cons_of_neg (by simpa using hkeep)]
        simp only [lookupValue]
        by_cases hkk : k₁ = k
        · subst hkk
          exact absurd hk hkeep
        · simp [hkk, ih]

/-- Cons unfolding of the list-items loop (shows the `List(index:i)`
trace segment each element is validated under). -/
theorem validateListItems_cons (s₀ : Schema) (x : Value) (rest : List Value)
    (i : Nat) (tr : String) :
    validateListItems s₀ (x :: rest) i tr =
      (validateTree x s₀ (tr ++ listSeg i)).bind
        (fun _ => validateListItems s₀ rest (i + 1) tr) := by
  simp [validateListItems]

theorem parseListItems_cons (s₀ : Schema) (x : Value) (rest : List Value)
    (i : Nat) (tr : String) :
    parseListItems s₀ (x :: rest) i tr =
      (parseTree x s₀ (tr ++ listSeg i)).bind
        (fun r => (parseListItems s₀ rest (i + 1) tr).map (fun rs => r :: rs)) := by
  simp [parseListItems]

theorem getParsedValue_boolean (strict : Bool) (v : Value) :
    getParsedValue (.boolean strict) v = .ok (booleanParse v) := by
  simp [getParsedValue, typeParse, condCheck, condOf, exceptBind_ok]

theorem objectSeg_length (k : String) : (objectSeg k).length = k.length + 19 := by
  simp only [objectSeg, strRepr, TRACE_SEP, String.length_append]
  have h1 : ("Object(key:" : String).length = 11 := rfl
  have h2 : ("\x27" : String).length = 1 := rfl
  have h3 : (")" : String).length = 1 := rfl
  have h4 : (" --> " : String).length = 5 := rfl
  omega

/-! ### The claims -/

/-- C6: for the schema `{"nest": {"nest": [Number(min=0)]}}` and the
input `{"nest": {"nest": [1, -1]}}`, `clean` raises a ValidationError
whose trace names the path
`Object(key:'nest') --> Object(key:'nest') --> List(index:1) --> Number`
(with value -1 and the minimum message); and in general each recursion
level prepends its own separator-joined segment to the trace already
carried by the inner failure, in both passes. -/
theorem c6_nested_trace_path :
    (clean
        (.dict [("nest", .dict [("nest",
          .list [.number (some 0) Option.none false noCond])])])
        (.dict [("nest", .dict [("nest", .list [.int 1, .int (-1)])])])
      = .error (.vErr ⟨.int (-1), "is less than the minimum: 0",
          "Object(key:\x27nest\x27) --> Object(key:\x27nest\x27) --> List(index:1) --> Number"⟩)) ∧
    (∀ v s tr, validateTree v s tr = prependTrace tr (validateTree v s "")) ∧
    (∀ v s tr, parseTree v s tr = prependTrace tr (parseTree v s "")) := by
  refine ⟨?_, fun v s tr => validateTree_trace v s tr, fun v s tr => parseTree_trace v s tr⟩
  simp +decide [clean, validateTree, typeValidate, validateItems, validateListItems,
    validateTupleItems, firstMissingKey, containsKey, lookupValue, lookupSchema,
    Schema.isOptional, regexValidate, matchDollar, numberPatternCore, isNumericInstance,
    invalid, typeName, parseTree, parseFields, parseListItems, parseTupleItems,
    parseAnyAlts, anyAttempt, getParsedValue, typeParse, condCheck, boundsCheck, condOf,
    noCond, numberParse, pyFloat, parseFloatString, booleanParse, iterElems, wrapOptional,
    prependTrace, exceptBind_ok, exceptBind_err, exceptMap_ok, exceptMap_err,
    objectSeg, listSeg, tupleSeg, strRepr, TRACE_SEP, pyNumStr, valToQ, digitsVal]

/-- C10: the standalone validate of a first-match-of-alternatives node
always succeeds (it is the no-op `Type.validate` inherited by `Any`), so
the walker validate pass can never fail at such a node; the rejection of
values no alternative accepts happens only in its parse, as the second
conjunct shows on a concrete input. -/
theorem c10_any_validate_noop :
    (∀ v ts tr, validateTree v (.any ts) tr = .ok ()) ∧
    parseTree (.int 1) (.any [.null]) "" =
      .error (.vErr ⟨.int 1, "doesn\x27t meet any allowed criterion", "Any(Null)"⟩) := by
  constructor
  · intro v ts tr
    rw [validateTree_scalar (.any ts) rfl]
    simp [typeValidate, prependTrace_okv]
  · simp +decide [validateTree, typeValidate, parseTree, parseAnyAlts, anyAttempt,
      getParsedValue, typeParse, condCheck, condOf, invalid, typeName, prependTrace,
      exceptBind_ok, exceptBind_err, wrapOptional]

/-- C1 counterexample: the claim says a validation-passing input always
parses without raising.  `Number(min=0)` on input `-1` passes the
validate pass (bounds are only checked in `get_parsed_value`, i.e. in
the parse pass) and then raises during parse. -/
theorem c1_counterexample :
    validateTree (.int (-1)) (.number (some 0) Option.none false noCond) "" = .ok () ∧
    parseTree (.int (-1)) (.number (some 0) Option.none false noCond) "" =
      .error (.vErr ⟨.int (-1), "is less than the minimum: 0", "Number"⟩) := by
  constructor
  · simp +decide [validateTree, typeValidate, isNumericInstance, prependTrace]
  · simp +decide [parseTree, getParsedValue, typeParse, condCheck, boundsCheck, condOf,
      noCond, numberParse, pyFloat, valToQ, invalid, typeName, pyNumStr, prependTrace,
      exceptBind_ok, exceptBind_err]

/-- C1 (amended): if the validate pass accepts the input and the parse
pass also completes without raising, the parsed value has a container
nesting (mapping / sequence / tuple structure) that mirrors the schema
shape (`specMirrors`); `schemaWF` records the key uniqueness every
Python dict schema literal has by construction.  (As stated the claim is
false: validation passing does not guarantee the parse pass succeeds —
see the counterexample.) -/
theorem c1_validated_parse_mirrors_shape (s : Schema) (v r : Value) (tr₁ tr₂ : String)
    (hwf : schemaWF s = true) (hv : validateTree v s tr₁ = .ok ())
    (hp : parseTree v s tr₂ = .ok r) : specMirrors s r = true :=
  shape_aux (sizeOf s) s le_rfl v r tr₁ tr₂ hwf hv hp

/-- Witness for C1: a concrete run of the amended claim. -/
theorem c1_witness :
    specMirrors (.dict [("foo", .string true noCond), ("bar", .optional .null)])
      (.dict [("foo", .str "hello"), ("bar", Value.none)]) = true :=
  c1_validated_parse_mirrors_shape
    (.dict [("foo", .string true noCond), ("bar", .optional .null)])
    (.dict [("foo", .str "hello")])
    (.dict [("foo", .str "hello"), ("bar", Value.none)]) "" ""
    (by simp +decide [schemaWF, schemaWFFields, keysNodup])
    (by simp +decide [validateTree, typeValidate, validateItems, firstMissingKey,
      containsKey, lookupValue, lookupSchema, Schema.isOptional, invalid, typeName,
      prependTrace, exceptBind_ok, objectSeg, strRepr, TRACE_SEP, wrapOptional])
    (by simp +decide [parseTree, parseFields, getParsedValue, typeParse, condCheck,
      condOf, noCond, lookupValue, pyStr, prependTrace, exceptBind_ok, exceptMap_ok,
      wrapOptional, objectSeg, strRepr, TRACE_SEP])

/-- C2: `Any.parse` tries the alternatives in declared order with a full
validate-then-parse each (`anyAttempt`); the first alternative whose
attempt succeeds determines the returned coerced value; if every
alternative fails with a ValidationError, one ValidationError is raised
whose trace joins the alternatives\x27 traces with ", " wrapped as
`Any(...)`.  For alternatives `[Number, String]` (defaults:
`Number(strict=False)`, `String(strict=True)`) and input `"42"`, the
Number alternative wins, coercing to the int 42. -/
theorem c2_any_first_match_wins :
    (∀ (v : Value) (ts₁ : List Schema) (t : Schema) (ts₂ : List Schema) (tr : String)
        (r : Value),
      (∀ t₁ ∈ ts₁, ∃ e, anyAttempt v t₁ = .error (.vErr e)) →
      anyAttempt v t = .ok r →
      parseTree v (.any (ts₁ ++ t :: ts₂)) tr = .ok r) ∧
    (∀ (v : Value) (ts : List Schema) (es : List VError) (tr : String),
      List.Forall₂ (fun t e => anyAttempt v t = .error (.vErr e)) ts es →
      parseTree v (.any ts) tr =
        .error (.vErr ⟨v, "doesn\x27t meet any allowed criterion",
          tr ++ ("Any(" ++ String.intercalate ", " (es.map (·.trace)) ++ ")")⟩)) ∧
    (anyAttempt (.str "42") (.number Option.none Option.none false noCond)
        = .ok (.int 42) ∧
      parseTree (.str "42")
        (.any [.number Option.none Option.none false noCond, .string true noCond]) ""
        = .ok (.int 42)) := by
  refine ⟨?_, ?_, ?_, ?_⟩
  · intro v ts₁ t ts₂ tr r hfail hok
    rw [parseTree_scalar (.any (ts₁ ++ t :: ts₂)) rfl, getParsedValue_any,
      parseAnyAlts_first_ok v ts₁ t ts₂ [] r hfail hok, prependTrace_okv]
  · intro v ts es tr hfail
    rw [parseTree_scalar (.any ts) rfl, getParsedValue_any,
      parseAnyAlts_all_fail v ts es [] hfail, prependTrace_verr]
    simp
  · simp +decide [anyAttempt, validateTree, typeValidate, isNumericInstance, matchDollar,
      numberPatternCore, invalid, typeName, parseTree, getParsedValue, typeParse,
      condCheck, boundsCheck, valToQ, condOf, noCond, numberParse, pyFloat,
      parseFloatString, digitsVal, prependTrace, exceptBind_ok, exceptBind_err]
  · simp +decide [anyAttempt, validateTree, typeValidate, isNumericInstance, matchDollar,
      numberPatternCore, invalid, typeName, parseTree, parseAnyAlts, getParsedValue,
      typeParse, condCheck, boundsCheck, valToQ, condOf, noCond, numberParse, pyFloat,
      parseFloatString, digitsVal, prependTrace, exceptBind_ok, exceptBind_err]

/-- Witness for C2: alternatives `[Null, String(strict=False)]` on the
input `5`: the Null alternative fails, the lenient String alternative
wins and stringifies. -/
theorem c2_witness :
    parseTree (.int 5) (.any [.null, .string false noCond]) "" = .ok (.str "5") :=
  c2_any_first_match_wins.1 (.int 5) [.null] (.string false noCond) [] "" (.str "5")
    (by
      intro t₁ ht₁
      rw [List.mem_singleton] at ht₁
      subst ht₁
      exact ⟨⟨.int 5, "is not null", "Null"⟩, by
        simp +decide [anyAttempt, validateTree, typeValidate, invalid, typeName,
          prependTrace, exceptBind_err]⟩)
    (by
      simp +decide [anyAttempt, validateTree, typeValidate, parseTree, getParsedValue,
        typeParse, condCheck, condOf, noCond, pyStr, pyRepr, prependTrace,
        exceptBind_ok])

/-- C5: `Optional(S)` short-circuits on the absence sentinel in both
passes (validate passes, parse returns the sentinel, no recursion);
on any other input both passes delegate to the walker on `S` and
re-wrap an inner ValidationError trace as `Optional(<inner trace>)`
(`wrapOptional`), under the current trace prefix; a mapping input
missing a key whose node is `Optional(S)` parses that key to the
absence sentinel, and the required-key check never fires when every
non-optional key is present. -/
theorem c5_optional_absence :
    (∀ (s : Schema) (tr : String), validateTree .none (.optional s) tr = .ok ()) ∧
    (∀ (s : Schema) (tr : String), parseTree .none (.optional s) tr = .ok .none) ∧
    (∀ (s : Schema) (v : Value) (tr : String), v ≠ .none →
      validateTree v (.optional s) tr = prependTrace tr (wrapOptional (validateTree v s ""))) ∧
    (∀ (s : Schema) (v : Value) (tr : String), v ≠ .none →
      parseTree v (.optional s) tr = prependTrace tr (wrapOptional (parseTree v s ""))) ∧
    (∀ (fields : List (String × Schema)) (kvs : List (String × Value)) (k : String)
        (s : Schema) (tr : String) (out : List (String × Value)),
      (k, .optional s) ∈ fields → lookupValue k kvs = Option.none →
      parseTree (.dict kvs) (.dict fields) tr = .ok (.dict out) →
      (k, Value.none) ∈ out) ∧
    (∀ (fields : List (String × Schema)) (kvs : List (String × Value)) (tr : String),
      (∀ p ∈ fields, p.2.isOptional = false → containsKey kvs p.1 = true) →
      validateTree (.dict kvs) (.dict fields) tr = validateItems fields kvs tr) := by
  refine ⟨?_, ?_, ?_, ?_, ?_, ?_⟩
  · intro s tr
    rw [validateTree_scalar (.optional s) rfl, typeValidate_optional_none, prependTrace_okv]
  · intro s tr
    rw [parseTree_scalar (.optional s) rfl, getParsedValue_optional,
      typeParse_optional_none, prependTrace_okv]
  · intro s v tr hv
    rw [validateTree_scalar (.optional s) rfl, typeValidate_optional_some s v hv]
  · intro s v tr hv
    rw [parseTree_scalar (.optional s) rfl, getParsedValue_optional,
      typeParse_optional_some s v hv]
  · intro fields kvs k s tr out hmem hlv hp
    rw [parseTree_dict] at hp
    cases hpf : parseFields fields kvs tr with
    | error e =>
        rw [hpf] at hp
        simp [exceptMap_err] at hp
    | ok out₁ =>
        rw [hpf] at hp
        simp only [exceptMap_ok, Except.ok.injEq, Value.dict.injEq] at hp
        subst hp
        have hforall := (parseFields_ok_iff fields kvs tr out₁).mp hpf
        obtain ⟨rr, hrrmem, hk, hparse⟩ := forall₂_mem_left hforall (k, .optional s) hmem
        rw [hlv] at hparse
        simp only [Option.getD_none] at hparse
        rw [parseTree_scalar (.optional s) rfl, prependTrace_empty,
          getParsedValue_optional, typeParse_optional_none] at hparse
        obtain ⟨rk, rv⟩ := rr
        simp only at hk
        injection hparse with h2
        subst hk
        have h3 : rv = Value.none := by simpa using h2.symm
        subst h3
        exact hrrmem
  · intro fields kvs tr hpres
    rw [validateTree_dict]
    have hnone : firstMissingKey fields kvs = Option.none := by
      rw [firstMissingKey_none_iff]
      intro p hp
      rcases Bool.eq_false_or_eq_true p.2.isOptional with ho | ho
      · exact Or.inl ho
      · exact Or.inr (hpres p hp ho)
    rw [hnone]

/-- Witness for C5: a mapping with a single optional key, absent from
the input, parses that key to the absence sentinel. -/
theorem c5_witness :
    ("a", Value.none) ∈ [("a", Value.none)] :=
  c5_optional_absence.2.2.2.2.1 [("a", .optional .null)] [] "a" .null ""
    [("a", Value.none)] (by simp) rfl
    (by simp +decide [parseTree, parseFields, getParsedValue, typeParse, condCheck,
      condOf, lookupValue, prependTrace, exceptBind_ok, exceptMap_ok, wrapOptional,
      objectSeg, strRepr, TRACE_SEP])

/-- C7: an empty-list sequence schema validates any list-or-tuple input
with no per-element recursion, and its parse returns an empty list
whatever the input is; a one-element sequence schema applies the element
schema to every input element, with trace segment `List(index:<i>)`
(visible in the loop unfoldings). -/
theorem c7_sequence_schemas :
    (∀ (xs : List Value) (tr : String),
      validateTree (.list xs) (.list []) tr = .ok () ∧
        validateTree (.tuple xs) (.list []) tr = .ok ()) ∧
    (∀ (v : Value) (tr : String), parseTree v (.list []) tr = .ok (.list [])) ∧
    (∀ (s₀ : Schema) (xs : List Value) (tr : String),
      validateTree (.list xs) (.list [s₀]) tr = .ok () ↔
        ∀ x ∈ xs, validateTree x s₀ "" = .ok ()) ∧
    (∀ (s₀ : Schema) (xs : List Value) (tr : String) (rs : List Value),
      parseTree (.list xs) (.list [s₀]) tr = .ok (.list rs) ↔
        List.Forall₂ (fun x r => parseTree x s₀ "" = .ok r) xs rs) ∧
    (∀ (s₀ : Schema) (x : Value) (rest : List Value) (i : Nat) (tr : String),
      validateListItems s₀ (x :: rest) i tr =
        (validateTree x s₀ (tr ++ listSeg i)).bind
          (fun _ => validateListItems s₀ rest (i + 1) tr)) ∧
    (∀ (s₀ : Schema) (x : Value) (rest : List Value) (i : Nat) (tr : String),
      parseListItems s₀ (x :: rest) i tr =
        (parseTree x s₀ (tr ++ listSeg i)).bind
          (fun r => (parseListItems s₀ rest (i + 1) tr).map (fun rs => r :: rs))) := by
  refine ⟨?_, ?_, ?_, ?_, ?_, ?_⟩
  · intro xs tr
    exact ⟨validateTree_listSchema_nil_list xs tr, validateTree_listSchema_nil_tuple xs tr⟩
  · intro v tr
    exact parseTree_listSchema_nil v tr
  · intro s₀ xs tr
    rw [validateTree_listSchema_one_list]
    exact validateListItems_ok_iff s₀ xs 0 tr
  · intro s₀ xs tr rs
    rw [parseTree_listSchema_cons]
    simp only [iterElems, exceptBind_ok]
    cases hpl : parseListItems s₀ xs 0 tr with
    | ok rs₁ =>
        simp only [exceptMap_ok, Except.ok.injEq, Value.list.injEq]
        constructor
        · intro h
          subst h
          exact (parseListItems_ok_iff s₀ xs 0 tr rs₁).mp hpl
        · intro h
          have h₂ := (parseListItems_ok_iff s₀ xs 0 tr rs).mpr h
          rw [h₂] at hpl
          injection hpl with h3
          exact h3.symm
    | error e =>
        simp only [exceptMap_err]
        constructor
        · intro h
          cases h
        · intro h
          have h₂ := (parseListItems_ok_iff s₀ xs 0 tr rs).mpr h
          rw [h₂] at hpl
          cases hpl
  · intro s₀ x rest i tr
    exact validateListItems_cons s₀ x rest i tr
  · intro s₀ x rest i tr
    exact parseListItems_cons s₀ x rest i tr

/-- Witness for C7: the validate iff of a one-element schema applied to
a two-element input. -/
theorem c7_witness :
    validateTree (.list [Value.none, Value.none]) (.list [.null]) "" = .ok () :=
  (c7_sequence_schemas.2.2.1 .null [Value.none, Value.none] "").mpr
    (by
      intro x hx
      rcases List.mem_cons.mp hx with h | h
      · subst h
        simp +decide [validateTree, typeValidate, prependTrace]
      · rw [List.mem_singleton] at h
        subst h
        simp +decide [validateTree, typeValidate, prependTrace])

/-- C3: over a mapping schema and mapping input, the validate pass fails
with a node-level "doesn\x27t have key" error (trace `tr ++ "Object"`)
exactly when some schema key whose node is not `Optional` is absent from
the input; keys present only in the input are ignored (dropping them
changes nothing about acceptance); validation succeeds exactly when the
required keys are present and every input pair whose key the schema
declares validates against its node from the root of its own subtree;
and a first failing shared key surfaces with trace segment
`Object(key:<key>)`. -/
theorem c3_dict_open_validation :
    ∀ (fields : List (String × Schema)) (kvs : List (String × Value)) (tr : String),
      ((∃ p ∈ fields, p.2.isOptional = false ∧ containsKey kvs p.1 = false) ↔
        (∃ k, validateTree (.dict kvs) (.dict fields) tr =
          .error (.vErr ⟨.dict kvs, "doesn\x27t have key \"" ++ k ++ "\"",
            tr ++ "Object"⟩))) ∧
      (validateTree (.dict kvs) (.dict fields) tr = .ok () ↔
        validateTree (.dict (kvs.filter (fun p => (lookupSchema p.1 fields).isSome)))
          (.dict fields) tr = .ok ()) ∧
      (validateTree (.dict kvs) (.dict fields) tr = .ok () ↔
        firstMissingKey fields kvs = Option.none ∧
          ∀ p ∈ kvs, ∀ sub, lookupSchema p.1 fields = some sub →
            validateTree p.2 sub "" = .ok ()) ∧
      (∀ (pre : List (String × Value)) (k : String) (v : Value)
          (post : List (String × Value)) (sub : Schema) (e : VError),
        kvs = pre ++ (k, v) :: post →
        firstMissingKey fields kvs = Option.none →
        (∀ p ∈ pre, ∀ sub₁, lookupSchema p.1 fields = some sub₁ →
          validateTree p.2 sub₁ "" = .ok ()) →
        lookupSchema k fields = some sub →
        validateTree v sub "" = .error (.vErr e) →
        validateTree (.dict kvs) (.dict fields) tr =
          .error (.vErr ⟨e.value, e.message, tr ++ objectSeg k ++ e.trace⟩)) := by
  intro fields kvs tr
  refine ⟨?_, ?_, ?_, ?_⟩
  · constructor
    · rintro ⟨p, hpmem, hopt, hcont⟩
      cases h : firstMissingKey fields kvs with
      | none =>
          exfalso
          rcases (firstMissingKey_none_iff fields kvs).mp h p hpmem with h₁ | h₁
          · rw [hopt] at h₁
            cases h₁
          · rw [hcont] at h₁
            cases h₁
      | some k =>
          refine ⟨k, ?_⟩
          rw [validateTree_dict, h]
    · rintro ⟨k, herr⟩
      rw [validateTree_dict] at herr
      cases h : firstMissingKey fields kvs with
      | some k₁ =>
          obtain ⟨sub, hmem, hopt, hcont⟩ := firstMissingKey_some_missing fields kvs k₁ h
          exact ⟨(k₁, sub), hmem, hopt, hcont⟩
      | none =>
          rw [h] at herr
          exfalso
          obtain ⟨k₂, rest₂, htr⟩ := validateItems_err_trace fields kvs tr _ herr
          simp only at htr
          have hlen := congrArg String.length htr
          simp only [String.length_append, objectSeg_length] at hlen
          have h6 : ("Object" : String).length = 6 := rfl
          rw [h6] at hlen
          omega
  · have hck : ∀ p ∈ fields,
        containsKey (kvs.filter (fun q => (lookupSchema q.1 fields).isSome)) p.1 =
          containsKey kvs p.1 := by
      intro p hp
      have hs : (lookupSchema p.1 fields).isSome = true := by
        obtain ⟨k₁, s₁⟩ := p
        exact lookupSchema_isSome_of_mem hp
      simp only [containsKey]
      rw [lookupValue_filter_schemaKeys fields kvs p.1 hs]
    have hfm : firstMissingKey fields kvs = Option.none ↔
        firstMissingKey fields (kvs.filter (fun q => (lookupSchema q.1 fields).isSome)) =
          Option.none := by
      rw [firstMissingKey_none_iff, firstMissingKey_none_iff]
      constructor
      · intro h p hp
        rcases h p hp with h₁ | h₁
        · exact Or.inl h₁
        · exact Or.inr (by rw [hck p hp]; exact h₁)
      · intro h p hp
        rcases h p hp with h₁ | h₁
        · exact Or.inl h₁
        · exact Or.inr (by rw [← hck p hp]; exact h₁)
    rw [validateTree_dict, validateTree_dict]
    cases h : firstMissingKey fields kvs with
    | some k =>
        have h₂ : firstMissingKey fields
            (kvs.filter (fun q => (lookupSchema q.1 fields).isSome)) ≠ Option.none := by
          intro hc
          rw [← hfm] at hc
          rw [h] at hc
          cases hc
        cases h₃ : firstMissingKey fields
            (kvs.filter (fun q => (lookupSchema q.1 fields).isSome)) with
        | some k₁ => simp
        | none => exact absurd h₃ h₂
    | none =>
        have h₂ := hfm.mp h
        rw [h₂]
        rw [validateItems_ok_iff, validateItems_ok_iff]
        constructor
        · intro hall p hp sub hls
          exact hall p (List.mem_filter.mp hp).1 sub hls
        · intro hall p hp sub hls
          refine hall p (List.mem_filter.mpr ⟨hp, ?_⟩) sub hls
          simp [hls]
  · rw [validateTree_dict]
    cases h : firstMissingKey fields kvs with
    | some k => simp [h]
    | none => simp [h, validateItems_ok_iff]
  · intro pre k v post sub e hkvs hnone hpre hls herr
    rw [validateTree_dict, hnone, hkvs]
    exact validateItems_first_err fields pre k v post tr sub e hpre hls herr

/-- Witness for C3: the shared-key first-failure clause at a concrete
input (key "a" holding 1 against a Null node). -/
theorem c3_witness :
    validateTree (.dict [("a", .int 1)]) (.dict [("a", .null)]) "" =
      .error (.vErr ⟨.int 1, "is not null", "" ++ objectSeg "a" ++ "Null"⟩) :=
  (c3_dict_open_validation [("a", .null)] [("a", .int 1)] "").2.2.2
    [] "a" (.int 1) [] .null ⟨.int 1, "is not null", "Null"⟩ rfl rfl
    (by simp)
    rfl
    (by simp +decide [validateTree, typeValidate, invalid, typeName, prependTrace])

/-- C4: the validate pass surfaces the depth-first-earliest failure in a
deterministic order: in a sequence, the least failing index (all earlier
elements passing); in a tuple, the least failing slot; in a mapping, the
required-presence checks of the node run first, in schema key order, and
only then does recursion proceed over the input mapping pairs in their
iteration order, surfacing the first failing shared key. -/
theorem c4_first_failure_order :
    (∀ (s₀ : Schema) (pre : List Value) (x : Value) (post : List Value)
        (tr : String) (e : VError),
      (∀ y ∈ pre, validateTree y s₀ "" = .ok ()) →
      validateTree x s₀ "" = .error (.vErr e) →
      validateTree (.list (pre ++ x :: post)) (.list [s₀]) tr =
        .error (.vErr ⟨e.value, e.message, tr ++ listSeg pre.length ++ e.trace⟩)) ∧
    (∀ (spre : List Schema) (s₁ : Schema) (spost : List Schema)
        (vpre : List Value) (x : Value) (vpost : List Value) (tr : String) (e : VError),
      vpre.length = spre.length → vpost.length = spost.length →
      (∀ p ∈ spre.zip vpre, validateTree p.2 p.1 "" = .ok ()) →
      validateTree x s₁ "" = .error (.vErr e) →
      validateTree (.list (vpre ++ x :: vpost)) (.tuple (spre ++ s₁ :: spost)) tr =
        .error (.vErr ⟨e.value, e.message, tr ++ tupleSeg spre.length ++ e.trace⟩)) ∧
    (∀ (pre : List (String × Schema)) (k : String) (sub : Schema)
        (post : List (String × Schema)) (kvs : List (String × Value)) (tr : String),
      (∀ p ∈ pre, p.2.isOptional = true ∨ containsKey kvs p.1 = true) →
      containsKey kvs k = false → sub.isOptional = false →
      validateTree (.dict kvs) (.dict (pre ++ (k, sub) :: post)) tr =
        .error (.vErr ⟨.dict kvs, "doesn\x27t have key \"" ++ k ++ "\"",
          tr ++ "Object"⟩)) ∧
    (∀ (fields : List (String × Schema)) (pre : List (String × Value)) (k : String)
        (v : Value) (post : List (String × Value)) (sub : Schema) (tr : String)
        (e : VError),
      firstMissingKey fields (pre ++ (k, v) :: post) = Option.none →
      (∀ p ∈ pre, ∀ sub₁, lookupSchema p.1 fields = some sub₁ →
        validateTree p.2 sub₁ "" = .ok ()) →
      lookupSchema k fields = some sub →
      validateTree v sub "" = .error (.vErr e) →
      validateTree (.dict (pre ++ (k, v) :: post)) (.dict fields) tr =
        .error (.vErr ⟨e.value, e.message, tr ++ objectSeg k ++ e.trace⟩)) := by
  refine ⟨?_, ?_, ?_, ?_⟩
  · intro s₀ pre x post tr e hpre hx
    rw [validateTree_listSchema_one_list,
      validateListItems_first_err s₀ pre x post 0 tr e hpre hx]
    simp
  · intro spre s₁ spost vpre x vpost tr e hlen₁ hlen₂ hpre hx
    have hlen : (spre ++ s₁ :: spost).length = (vpre ++ x :: vpost).length := by
      simp [List.length_append, hlen₁, hlen₂]
    rw [validateTree_tupleSchema_list _ _ tr hlen,
      validateTupleItems_first_err spre s₁ spost vpre x vpost 0 tr e hlen₁ hpre hx]
    simp
  · intro pre k sub post kvs tr hpre hmiss hreq
    rw [validateTree_dict, firstMissingKey_some_split pre k sub post kvs hpre hmiss hreq]
  · intro fields pre k v post sub tr e hnone hpre hls herr
    rw [validateTree_dict, hnone]
    exact validateItems_first_err fields pre k v post tr sub e hpre hls herr

/-- Witness for C4: the least failing index of a list input (index 1)
surfaces with its `List(index:1)` segment. -/
theorem c4_witness :
    validateTree (.list [Value.none, .int 1]) (.list [.null]) "" =
      .error (.vErr ⟨.int 1, "is not null", "" ++ listSeg 1 ++ "Null"⟩) := by
  have h := c4_first_failure_order.1 .null [Value.none] (.int 1) [] ""
    ⟨.int 1, "is not null", "Null"⟩
    (by
      intro y hy
      rw [List.mem_singleton] at hy
      subst hy
      simp +decide [validateTree, typeValidate, prependTrace])
    (by simp +decide [validateTree, typeValidate, invalid, typeName, prependTrace])
  simpa using h


/-- The token set exactly as the claim lists it:
`yes/true/t/1/1-int` for true. -/
def specClaimTrueTokens : List Value :=
  [.str "yes", .str "true", .str "t", .str "1", .int 1]

/-- The token set exactly as the claim lists it:
`no/false/f/0/0-int/absence` for false. -/
def specClaimFalseTokens : List Value :=
  [.str "no", .str "false", .str "f", .str "0", .int 0, .none]

/-- `value in admissible_true` characterised: the five strings of the
tuple (including the capitalised `"True"` missing from the claim), or a
numeric value Python-equal to 1 (ints, floats, Decimals, via `1 == 1.0`). -/
theorem pyIn_admissible_true_iff (v : Value) :
    pyIn v admissible_true = true ↔
      (v ∈ specClaimTrueTokens ∨ v = .str "True" ∨ valToQ v = some 1) := by
  cases v <;>
    simp +decide [pyIn, pyEq, valToQ, admissible_true, specClaimTrueTokens,
      Int.cast_eq_one]
  case str s => tauto

/-- `value in admissible_false` characterised: the five strings plus
`"False"`, the absence sentinel, or a numeric value Python-equal to 0. -/
theorem pyIn_admissible_false_iff (v : Value) :
    pyIn v admissible_false = true ↔
      (v ∈ specClaimFalseTokens ∨ v = .str "False" ∨ valToQ v = some 0) := by
  cases v <;>
    simp +decide [pyIn, pyEq, valToQ, admissible_false, specClaimFalseTokens,
      Int.cast_eq_zero]
  case str s => tauto

theorem typeValidate_boolean_nonbool (v : Value) (hnb : ∀ b, v ≠ .bool b) :
    typeValidate (.boolean false) v =
      (if !pyIn v admissible_true && !pyIn v admissible_false
       then .error (invalid (.boolean false) v "can\x27t be interpreted as boolean")
       else .ok ()) := by
  cases v
  case bool b => exact absurd rfl (hnb b)
  all_goals simp [typeValidate]

theorem typeValidate_boolean_lenient (v : Value) (hnb : ∀ b, v ≠ .bool b) :
    typeValidate (.boolean false) v = .ok () ↔
      (pyIn v admissible_true = true ∨ pyIn v admissible_false = true) := by
  rw [typeValidate_boolean_nonbool v hnb]
  by_cases h₁ : pyIn v admissible_true = true
  · simp [h₁]
  · by_cases h₂ : pyIn v admissible_false = true
    · simp [h₁, h₂]
    · simp [h₁, h₂, invalid, typeName]

theorem booleanParse_nonbool (v : Value) (hnb : ∀ b, v ≠ .bool b) :
    booleanParse v =
      (if pyIn v admissible_false then .bool false else .bool true) := by
  cases v
  case bool b => exact absurd rfl (hnb b)
  all_goals simp [booleanParse]

theorem booleanParse_false_iff (v : Value) (hnb : ∀ b, v ≠ .bool b) :
    booleanParse v = .bool false ↔ pyIn v admissible_false = true := by
  rw [booleanParse_nonbool v hnb]
  by_cases h₂ : pyIn v admissible_false = true
  · simp [h₂]
  · simp [h₂]

/-- C8 counterexample: the float `1.0` is accepted by the lenient
Boolean validate (Python membership `1.0 in (..., 1)` holds since
`1.0 == 1`) and parses to `True`, yet it is neither a literal boolean
nor a member of the token set the claim lists. -/
theorem c8_counterexample :
    validateTree (.float 1) (.boolean false) "" = .ok () ∧
    Value.float 1 ∉ specClaimTrueTokens ∧
    Value.float 1 ∉ specClaimFalseTokens ∧
    (∀ b, Value.float 1 ≠ .bool b) ∧
    parseTree (.float 1) (.boolean false) "" = .ok (.bool true) := by
  refine ⟨?_, ?_, ?_, ?_, ?_⟩
  · simp +decide [validateTree, typeValidate, pyIn, pyEq, valToQ, admissible_true,
      admissible_false, prependTrace]
  · simp [specClaimTrueTokens]
  · simp [specClaimFalseTokens]
  · intro b
    simp
  · simp +decide [parseTree, getParsedValue, typeParse, condCheck, condOf,
      booleanParse, pyIn, pyEq, valToQ, admissible_false, prependTrace, exceptBind_ok]

/-- C8 (amended): the lenient Boolean validate passes exactly on literal
booleans, the token strings of the tuples (including the capitalised
`"True"`/`"False"`), the absence sentinel, and any numeric value
Python-equal to 1 or 0 (such as `1.0`); parse is the identity on literal
booleans, maps everything belonging to the false token family to
`False`, and everything else — including all accepted true tokens — to
`True`; the strict Boolean rejects every non-literal-boolean value. -/
theorem c8_boolean_variants :
    (∀ (v : Value) (tr : String),
      validateTree v (.boolean false) tr = .ok () ↔
        ((∃ b, v = .bool b) ∨ v ∈ specClaimTrueTokens ∨ v ∈ specClaimFalseTokens ∨
          v = .str "True" ∨ v = .str "False" ∨
          valToQ v = some 1 ∨ valToQ v = some 0)) ∧
    (∀ (v : Value) (tr : String), (∀ b, v ≠ .bool b) →
      validateTree v (.boolean true) tr =
        .error (.vErr ⟨v, "is not boolean", tr ++ "Boolean"⟩)) ∧
    (∀ (b strict : Bool) (tr : String),
      parseTree (.bool b) (.boolean strict) tr = .ok (.bool b)) ∧
    (∀ (v : Value) (strict : Bool) (tr : String), (∀ b, v ≠ .bool b) →
      (v ∈ specClaimFalseTokens ∨ v = .str "False" ∨ valToQ v = some 0) →
      parseTree v (.boolean strict) tr = .ok (.bool false)) ∧
    (∀ (v : Value) (strict : Bool) (tr : String), (∀ b, v ≠ .bool b) →
      ¬(v ∈ specClaimFalseTokens ∨ v = .str "False" ∨ valToQ v = some 0) →
      parseTree v (.boolean strict) tr = .ok (.bool true)) := by
  refine ⟨?_, ?_, ?_, ?_, ?_⟩
  · intro v tr
    rw [validateTree_scalar (.boolean false) rfl]
    by_cases hb : ∃ b, v = .bool b
    · obtain ⟨b, rfl⟩ := hb
      simp [typeValidate, prependTrace_okv]
    · have hnb : ∀ b, v ≠ .bool b := by
        intro b hc
        exact hb ⟨b, hc⟩
      cases hv : typeValidate (.boolean false) v with
      | ok u =>
          cases u
          simp only [prependTrace_okv, true_iff]
          have h₁ := (typeValidate_boolean_lenient v hnb).mp hv
          rcases h₁ with h₁ | h₁
          · rcases (pyIn_admissible_true_iff v).mp h₁ with h₂ | h₂ | h₂
            · simp [h₂]
            · simp [h₂]
            · simp [h₂]
          · rcases (pyIn_admissible_false_iff v).mp h₁ with h₂ | h₂ | h₂
            · simp [h₂]
            · simp [h₂]
            · simp [h₂]
      | error e =>
          constructor
          · intro h
            cases e <;> simp [prependTrace_verr, prependTrace_terr] at h
          · intro h
            exfalso
            have h₂ : typeValidate (.boolean false) v = .ok () := by
              rw [typeValidate_boolean_lenient v hnb]
              rcases h with ⟨b, rfl⟩ | h | h | h | h | h | h
              · exact absurd rfl (hnb b)
              · exact Or.inl ((pyIn_admissible_true_iff v).mpr (Or.inl h))
              · exact Or.inr ((pyIn_admissible_false_iff v).mpr (Or.inl h))
              · exact Or.inl ((pyIn_admissible_true_iff v).mpr (Or.inr (Or.inl h)))
              · exact Or.inr ((pyIn_admissible_false_iff v).mpr (Or.inr (Or.inl h)))
              · exact Or.inl ((pyIn_admissible_true_iff v).mpr (Or.inr (Or.inr h)))
              · exact Or.inr ((pyIn_admissible_false_iff v).mpr (Or.inr (Or.inr h)))
            rw [h₂] at hv
            cases hv
  · intro v tr hnb
    rw [validateTree_scalar (.boolean true) rfl]
    cases v
    case bool b => exact absurd rfl (hnb b)
    all_goals simp [typeValidate, invalid, typeName, prependTrace_verr]
  · intro b strict tr
    rw [parseTree_scalar (.boolean strict) rfl, getParsedValue_boolean]
    simp [booleanParse, prependTrace_okv]
  · intro v strict tr hnb hfalse
    rw [parseTree_scalar (.boolean strict) rfl, getParsedValue_boolean]
    have h₂ : booleanParse v = .bool false := by
      rw [booleanParse_false_iff v hnb, pyIn_admissible_false_iff]
      exact hfalse
    rw [h₂, prependTrace_okv]
  · intro v strict tr hnb hnfalse
    rw [parseTree_scalar (.boolean strict) rfl, getParsedValue_boolean]
    have h₃ : ¬ pyIn v admissible_false = true := by
      rw [pyIn_admissible_false_iff]
      exact hnfalse
    have h₂ : booleanParse v = .bool true := by
      rw [booleanParse_nonbool v hnb]
      simp [h₃]
    rw [h₂, prependTrace_okv]

/-- Witness for C8: `"yes"` parses to `True`, `"f"` to `False`, absence
to `False`, and strict mode rejects the string `"yes"`. -/
theorem c8_witness :
    parseTree (.str "yes") (.boolean false) "" = .ok (.bool true) ∧
    parseTree (.str "f") (.boolean false) "" = .ok (.bool false) ∧
    parseTree Value.none (.boolean false) "" = .ok (.bool false) ∧
    validateTree (.str "yes") (.boolean true) "" =
      .error (.vErr ⟨.str "yes", "is not boolean", "" ++ "Boolean"⟩) := by
  refine ⟨?_, ?_, ?_, ?_⟩
  · exact c8_boolean_variants.2.2.2.2 (.str "yes") false "" (by intro b; simp)
      (by simp [specClaimFalseTokens, valToQ])
  · exact c8_boolean_variants.2.2.2.1 (.str "f") false "" (by intro b; simp)
      (by simp [specClaimFalseTokens])
  · exact c8_boolean_variants.2.2.2.1 Value.none false "" (by intro b; simp)
      (by simp [specClaimFalseTokens])
  · exact c8_boolean_variants.2.1 (.str "yes") "" (by intro b; simp)


/-- C9 counterexample: `Boolean.__init__(self, strict=True)` takes no
`condition` parameter and does not call `super().__init__`, so a Boolean
node carries no condition; its `get_parsed_value` can never fail on one
(it always returns `Boolean.parse`), while e.g. a String node with a
false-returning condition does fail generically. -/
theorem c9_counterexample :
    (∀ st, condOf (Schema.boolean st) = Option.none) ∧
    (∀ st c, condOf (.string st c) = some c) ∧
    (∀ (st : Bool) (v : Value),
      getParsedValue (.boolean st) v = .ok (booleanParse v)) ∧
    getParsedValue (.string true (fun _ => .ret false)) (.str "x") =
      .error (.vErr ⟨.str "x", "doesn\x27t meet the validation criterion",
        "String"⟩) := by
  refine ⟨?_, ?_, ?_, ?_⟩
  · intro st
    simp [condOf]
  · intro st c
    simp [condOf]
  · intro st v
    simp [getParsedValue, typeParse, condCheck, condOf, exceptBind_ok]
  · simp [getParsedValue, typeParse, condCheck, condOf, exceptBind_ok, invalid,
      typeName]

/-- C9 (amended): exactly the String, RegexString, Number, Date and
Datetime variants accept a condition (Null, Boolean, Optional, Any and
Constant do not — Boolean in particular stores none); where one is
configured, `get_parsed_value` evaluates it on the parsed value: a
predicate raising with a first argument rethrows as a ValidationError
carrying that argument as message, raising without arguments or
returning falsy yields the generic message, and a true result leaves
only the Number bounds check (an identity on every other variant). -/
theorem c9_condition_checks :
    (∀ st c, condOf (Schema.string st c) = some c) ∧
    (∀ p f c, condOf (.regexString p f c) = some c) ∧
    (∀ mi ma st c, condOf (.number mi ma st c) = some c) ∧
    (∀ c, condOf (.date c) = some c) ∧
    (∀ c, condOf (.datetime c) = some c) ∧
    (∀ st, condOf (Schema.boolean st) = Option.none) ∧
    condOf .null = Option.none ∧
    (∀ o, condOf (.optional o) = Option.none) ∧
    (∀ ts, condOf (.any ts) = Option.none) ∧
    (∀ cv, condOf (.constant cv) = Option.none) ∧
    (∀ (s : Schema) (v parsed : Value) (c : Cond) (msg : String)
        (rest : List String),
      condOf s = some c → typeParse s v = .ok parsed →
      c parsed = .exc (msg :: rest) →
      getParsedValue s v = .error (.vErr ⟨v, msg, typeName s⟩)) ∧
    (∀ (s : Schema) (v parsed : Value) (c : Cond),
      condOf s = some c → typeParse s v = .ok parsed → c parsed = .exc [] →
      getParsedValue s v =
        .error (.vErr ⟨v, "doesn\x27t meet the validation criterion",
          typeName s⟩)) ∧
    (∀ (s : Schema) (v parsed : Value) (c : Cond),
      condOf s = some c → typeParse s v = .ok parsed → c parsed = .ret false →
      getParsedValue s v =
        .error (.vErr ⟨v, "doesn\x27t meet the validation criterion",
          typeName s⟩)) ∧
    (∀ (s : Schema) (v parsed : Value) (c : Cond),
      condOf s = some c → typeParse s v = .ok parsed → c parsed = .ret true →
      getParsedValue s v = boundsCheck s v parsed) ∧
    (∀ (s : Schema) (v parsed : Value),
      (∀ mi ma st c₁, s ≠ .number mi ma st c₁) →
      boundsCheck s v parsed = .ok parsed) := by
  refine ⟨fun st c => rfl, fun p f c => rfl, fun mi ma st c => rfl,
    fun c => rfl, fun c => rfl, fun st => rfl, rfl, fun o => rfl,
    fun ts => rfl, fun cv => rfl, ?_, ?_, ?_, ?_, ?_⟩
  · intro s v parsed c msg rest hc hp hx
    cases s <;> simp [condOf] at hc <;> subst hc <;>
      simp [getParsedValue, hp, exceptBind_ok, exceptBind_err, condCheck,
        condOf, hx, invalid, typeName]
  · intro s v parsed c hc hp hx
    cases s <;> simp [condOf] at hc <;> subst hc <;>
      simp [getParsedValue, hp, exceptBind_ok, exceptBind_err, condCheck,
        condOf, hx, invalid, typeName]
  · intro s v parsed c hc hp hx
    cases s <;> simp [condOf] at hc <;> subst hc <;>
      simp [getParsedValue, hp, exceptBind_ok, exceptBind_err, condCheck,
        condOf, hx, invalid, typeName]
  · intro s v parsed c hc hp hx
    cases s <;> simp [condOf] at hc <;> subst hc <;>
      simp [getParsedValue, hp, exceptBind_ok, condCheck, condOf, hx,
        boundsCheck]
  · intro s v parsed hns
    cases s
    case number mi ma st c₁ => exact absurd rfl (hns mi ma st c₁)
    all_goals simp [boundsCheck]

/-- Witness for C9: a String condition raising with message `"boom"`
surfaces that message; a false-returning condition surfaces the generic
one. -/
theorem c9_witness :
    getParsedValue (.string true (fun _ => .exc ["boom"])) (.int 5) =
      .error (.vErr ⟨.int 5, "boom", "String"⟩) ∧
    getParsedValue (.string true (fun _ => .ret false)) (.int 5) =
      .error (.vErr ⟨.int 5, "doesn\x27t meet the validation criterion",
        "String"⟩) := by
  constructor
  · exact c9_condition_checks.2.2.2.2.2.2.2.2.2.2.1
      (.string true (fun _ => .exc ["boom"])) (.int 5) (.str (pyStr (.int 5)))
      (fun _ => .exc ["boom"]) "boom" [] rfl (by simp [typeParse]) rfl
  · exact c9_condition_checks.2.2.2.2.2.2.2.2.2.2.2.2.1
      (.string true (fun _ => .ret false)) (.int 5) (.str (pyStr (.int 5)))
      (fun _ => .ret false) rfl (by simp [typeParse]) rfl

end JsonSchema
